import Mathlib

/-!
Verification development for the structured-text transformation pipeline of
the `UDD_to_Code_gen` repository.

The Python sources embedded here are:
  * `app/generator1.py`  — `split_sections` (normalizer + section splitter),
  * `app/generator3.py`  — its `split_sections` variant,
  * `app/docx_writer.py` — `generate_doc` (line-oriented Markdown-ish parser)
    and `add_markdown_table`.

Strings are modelled as Lean `String`s, processed through their underlying
`List Char`; the state-machine of `generate_doc` is modelled by an explicit
state record folded over the input lines.  The emission of blocks into the
`docx` document object is modelled by an output list of typed blocks, each
tagged with the index of the input line that gave rise to it (the tag plays
no role in the control flow and is projected away by `generateModelLines`).
-/

/-! ## Character classes and basic string helpers -/

/-- Whitespace as recognised by Python's `str.strip()` and the regex class
`\s` (ASCII part): space, tab, newline, carriage return, vertical tab,
form feed. -/
def isPySpace (c : Char) : Bool :=
  c = ' ' || c = '\t' || c = '\n' || c = '\r' || c = '\x0b' || c = '\x0c'

/-- Characters admitted by the title character class `[A-Za-z ]` of the
header regexes in `generator1.py`. -/
def isTitleChar (c : Char) : Bool :=
  c.isAlpha || c = ' '

/-- Python `str.strip()` on a character list. -/
def pyStripL (cs : List Char) : List Char :=
  ((cs.dropWhile isPySpace).reverse.dropWhile isPySpace).reverse

/-- Python `str.strip()`. -/
def pyStrip (s : String) : String :=
  ⟨pyStripL s.data⟩

/-- Python `str.strip(chars)` for an explicit character set (used as
`cell.strip(" *")` in `add_markdown_table`). -/
def pyStripSet (set : List Char) (s : String) : String :=
  ⟨((s.data.dropWhile (· ∈ set)).reverse.dropWhile (· ∈ set)).reverse⟩

/-- Drop an expected literal prefix, returning the remainder on success. -/
def dropLit : List Char → List Char → Option (List Char)
  | [], cs => some cs
  | _, [] => none
  | l :: ls, c :: cs => if c = l then dropLit ls cs else none

/-- Boolean literal-prefix test (Python `str.startswith`). -/
def litStarts (s : String) (lit : String) : Bool :=
  (dropLit lit.data s.data).isSome

/-! ## The three regex rewrite passes of `split_sections`

`generator1.py` lines 57-72 (and identically `generator3.py` lines 54-57):

```
document = re.sub(r"(?<!\n)(SECTION\s*:?\s*\d+\.)", r"\n\1", document)
document = re.sub(r"SECTION\s*:?\s*\n*\s*(\d+\.\s+[A-Za-z ]+)",
                  r"SECTION: \1", document)
document = re.sub(r"(SECTION:\s*\d+\.\s+[A-Za-z ]+)", r"\1\n", document)
```

Each pattern is a sequence of greedy pieces over pairwise disjoint character
classes (`SECTION`, `\s*`, `:?`, `\s*`, `\d+`, `.`), so a deterministic
greedy scan is equivalent to the regex engine — except for the final
`\s+[A-Za-z ]+` fragment, where the two classes share the space character
and the engine backtracks; `matchGap` reproduces that backtracking exactly.
-/

/-- Split `w` (a run of whitespace) as `a ++ ' ' :: b` at the last space,
requiring `a` nonempty; returns `(a, b)`.  Used for the regex backtracking
of `\s+[A-Za-z ]+` when the character after the whitespace run cannot start
the title. -/
def lastSpaceCut (w : List Char) : Option (List Char × List Char) :=
  match w.reverse.dropWhile (· ≠ ' ') with
  | ' ' :: arev =>
    if arev.isEmpty then none
    else some (arev.reverse, (w.reverse.takeWhile (· ≠ ' ')).reverse)
  | _ => none

/-- Backtracking case of `\s+[A-Za-z ]+`: the engine shortens `\s+` to end
just before the last space of the whitespace run, and `[A-Za-z ]+` then
matches exactly that one space (everything after it in the run is
non-space whitespace, and the first non-whitespace character is known not
to be a letter).  Returns `(consumed, rest)`. -/
def backtrackGap (w r : List Char) : Option (List Char × List Char) :=
  match lastSpaceCut w with
  | some (a, b) => some (a ++ [' '], b ++ r)
  | none => none

/-- Match the regex fragment `\s+[A-Za-z ]+` with Python backtracking
semantics; returns `(consumed, rest)`. -/
def matchGap (cs : List Char) : Option (List Char × List Char) :=
  let w := cs.takeWhile isPySpace
  let r := cs.dropWhile isPySpace
  if w.isEmpty then none
  else
    match r with
    | c :: _ =>
      if c.isAlpha then some (w ++ r.takeWhile isTitleChar, r.dropWhile isTitleChar)
      else backtrackGap w r
    | [] => backtrackGap w r

/-- Match `SECTION\s*:?\s*\d+\.` at the head of `cs`; returns
`(matched, rest)`. -/
def matchHdrDot (cs : List Char) : Option (List Char × List Char) :=
  match dropLit "SECTION".data cs with
  | none => none
  | some r0 =>
    let w1 := r0.takeWhile isPySpace
    let r1 := r0.dropWhile isPySpace
    let col : List Char := match r1 with | ':' :: _ => [':'] | _ => []
    let r2 : List Char := match r1 with | ':' :: t => t | _ => r1
    let w2 := r2.takeWhile isPySpace
    let r3 := r2.dropWhile isPySpace
    let d := r3.takeWhile Char.isDigit
    let r4 := r3.dropWhile Char.isDigit
    if d.isEmpty then none
    else
      match r4 with
      | '.' :: r5 => some ("SECTION".data ++ w1 ++ col ++ w2 ++ d ++ ['.'], r5)
      | _ => none

/-- Match `SECTION\s*:?\s*\n*\s*(\d+\.\s+[A-Za-z ]+)` at the head of `cs`;
returns `(group1, rest)`.  The fragment `\s*\n*\s*` consumes exactly the
maximal whitespace run (`\n` is itself whitespace and the following `\d`
is disjoint from `\s`), so it is matched as one greedy whitespace span. -/
def matchHdrFull (cs : List Char) : Option (List Char × List Char) :=
  match dropLit "SECTION".data cs with
  | none => none
  | some r0 =>
    let r1 := r0.dropWhile isPySpace
    let r2 : List Char := match r1 with | ':' :: t => t | _ => r1
    let r3 := r2.dropWhile isPySpace
    let d := r3.takeWhile Char.isDigit
    let r4 := r3.dropWhile Char.isDigit
    if d.isEmpty then none
    else
      match r4 with
      | '.' :: r5 =>
        match matchGap r5 with
        | some (g, rest) => some (d ++ '.' :: g, rest)
        | none => none
      | _ => none

/-- Match the canonical-header pattern `SECTION:\s*\d+\.\s+[A-Za-z ]+` at the
head of `cs`; returns `(matched, rest)`. -/
def matchCanon (cs : List Char) : Option (List Char × List Char) :=
  match dropLit "SECTION:".data cs with
  | none => none
  | some r0 =>
    let w := r0.takeWhile isPySpace
    let r1 := r0.dropWhile isPySpace
    let d := r1.takeWhile Char.isDigit
    let r2 := r1.dropWhile Char.isDigit
    if d.isEmpty then none
    else
      match r2 with
      | '.' :: r3 =>
        match matchGap r3 with
        | some (g, rest) => some ("SECTION:".data ++ w ++ d ++ '.' :: g, rest)
        | none => none
      | _ => none

/-- Scanner for pass 1, `re.sub(r"(?<!\n)(SECTION\s*:?\s*\d+\.)", r"\n\1", ·)`:
insert a newline before every match not already preceded by one.  `prev` is
the character of the source just before the current position (for the
lookbehind); scanning resumes after each match, as in `re.sub`. -/
def pass1Go : Nat → Option Char → List Char → List Char
  | 0, _, cs => cs
  | _ + 1, _, [] => []
  | fuel + 1, prev, c :: cs =>
    match matchHdrDot (c :: cs) with
    | some (m, rest) =>
      if prev = some '\n' then c :: pass1Go fuel (some c) cs
      else '\n' :: (m ++ pass1Go fuel (some '.') rest)
    | none => c :: pass1Go fuel (some c) cs

/-- Scanner for pass 2,
`re.sub(r"SECTION\s*:?\s*\n*\s*(\d+\.\s+[A-Za-z ]+)", r"SECTION: \1", ·)`. -/
def pass2Go : Nat → List Char → List Char
  | 0, cs => cs
  | _ + 1, [] => []
  | fuel + 1, c :: cs =>
    match matchHdrFull (c :: cs) with
    | some (g, rest) => "SECTION: ".data ++ g ++ pass2Go fuel rest
    | none => c :: pass2Go fuel cs

/-- Scanner for pass 3,
`re.sub(r"(SECTION:\s*\d+\.\s+[A-Za-z ]+)", r"\1\n", ·)`: append a newline
after every canonical header match, unconditionally. -/
def pass3Go : Nat → List Char → List Char
  | 0, cs => cs
  | _ + 1, [] => []
  | fuel + 1, c :: cs =>
    match matchCanon (c :: cs) with
    | some (m, rest) => m ++ '\n' :: pass3Go fuel rest
    | none => c :: pass3Go fuel cs

/-- Pass 1 of the normalizer (`generator1.py` line 58). -/
def pass1Doc (s : String) : String :=
  ⟨pass1Go (s.data.length + 1) none s.data⟩

/-- Pass 2 of the normalizer (`generator1.py` lines 61-65). -/
def pass2Doc (s : String) : String :=
  ⟨pass2Go (s.data.length + 1) s.data⟩

/-- Pass 3 of the normalizer (`generator1.py` lines 68-72). -/
def pass3Doc (s : String) : String :=
  ⟨pass3Go (s.data.length + 1) s.data⟩

/-- The Normalizer: the three ordered rewrite passes applied by
`split_sections` before splitting. -/
def normalizeDoc (s : String) : String :=
  pass3Doc (pass2Doc (pass1Doc s))

/-- Scanner for `re.split(r"(SECTION:\s*\d+\.\s+[A-Za-z ]+)", ·)`: the
result alternates non-matching segments with the captured delimiters, with
a (possibly empty) segment first and last. -/
def splitGo : Nat → List Char → List Char → List (List Char)
  | 0, seg, cs => [seg.reverse ++ cs]
  | _ + 1, seg, [] => [seg.reverse]
  | fuel + 1, seg, c :: cs =>
    match matchCanon (c :: cs) with
    | some (m, rest) => seg.reverse :: m :: splitGo fuel [] rest
    | none => splitGo fuel (c :: seg) cs

/-- `re.split` on the canonical header pattern, keeping the captured
delimiters (`generator1.py` line 75). -/
def splitKeepDoc (s : String) : List String :=
  (splitGo (s.data.length + 1) [] s.data).map fun cs => (⟨cs⟩ : String)

/-! ## The accumulation loops of `split_sections`

The result dictionary is modelled as an insertion-ordered association list
with Python `dict` semantics: assignment to an existing key updates the
entry in place (keeping its position), a new key is appended at the end. -/

/-- Membership test `k in result` on the ordered dictionary. -/
def alMember (k : String) (l : List (String × String)) : Bool :=
  l.any fun e => e.1 = k

/-- Python `result[k] += v` on the ordered dictionary (the key is updated in
place).  In `split_sections` the current key is always present when this
runs, so the empty case is unreachable. -/
def alAppendVal (k v : String) : List (String × String) → List (String × String)
  | [] => []
  | e :: es => if e.1 = k then (e.1, e.2 ++ v) :: es else e :: alAppendVal k v es

/-- Python `result[k] = v` on the ordered dictionary: update in place if the
key exists (keeping insertion order), else append at the end. -/
def alSet (k v : String) : List (String × String) → List (String × String)
  | [] => [(k, v)]
  | e :: es => if e.1 = k then (e.1, v) :: es else e :: alSet k v es

/-- Lookup on the ordered dictionary (first matching entry). -/
def alGet (k : String) (l : List (String × String)) : Option String :=
  (l.find? fun e => e.1 = k).map fun e => e.2

/-- One iteration of the accumulation loop of `generator1.py`'s
`split_sections` (lines 79-91).  The state is the result dictionary
together with the current section key (`None` before the first header). -/
def sectionStep1 (st : List (String × String) × Option String) (part : String) :
    List (String × String) × Option String :=
  if pyStrip part = "" then st
  else if litStarts (pyStrip part) "SECTION:" then
    match matchCanon (pyStrip part).data with
    | some (g, _) =>
      (if alMember (pyStrip ⟨g⟩) st.1 then st.1 else st.1 ++ [(pyStrip ⟨g⟩, "")],
       some (pyStrip ⟨g⟩))
    | none => st
  else
    match st.2 with
    | some k => (alAppendVal k (pyStrip part ++ "\n") st.1, st.2)
    | none => st

/-- One iteration of the accumulation loop of `generator3.py`'s
`split_sections` (lines 63-72).  Unlike `generator1.py`, a header part
unconditionally resets its entry to the empty string
(`result[current_section] = ""`). -/
def sectionStep3 (st : List (String × String) × Option String) (part : String) :
    List (String × String) × Option String :=
  if pyStrip part = "" then st
  else if litStarts (pyStrip part) "SECTION:" then
    (alSet (pyStrip part) "" st.1, some (pyStrip part))
  else
    match st.2 with
    | some k => (alAppendVal k (pyStrip part ++ "\n") st.1, st.2)
    | none => st

/-- The document-level part of `generator1.py`'s `split_sections`
(lines 57-92): normalize, split on the canonical header pattern, and fold
the accumulation loop. -/
def splitSections1 (document : String) : List (String × String) :=
  ((splitKeepDoc (normalizeDoc document)).foldl sectionStep1 ([], none)).1

/-- The document-level part of `generator3.py`'s `split_sections`
(lines 54-74). -/
def splitSections3 (document : String) : List (String × String) :=
  ((splitKeepDoc (normalizeDoc document)).foldl sectionStep3 ([], none)).1

/-! ## The payload envelope of `split_sections`

`generator1.py` lines 47-55 (and `generator3.py` lines 43-52):

```
if isinstance(payload, str):
    data = json.loads(payload)
elif isinstance(payload, dict):
    data = payload
else:
    raise ValueError("Payload must be a JSON string or dict")
document = data.get("REQUIREMENT", "")
```

`json.loads` is Python standard-library code (an external collaborator);
it is modelled here by a recursive-descent JSON parser over the JSON value
grammar (objects, arrays, strings with escapes, numbers kept as lexemes,
`true`/`false`/`null`, and Python's `NaN`/`Infinity` extensions).  Duplicate
object keys keep the first position and the last value, as a Python dict
built by repeated assignment does. -/

/-- JSON values as decoded by Python's `json.loads`.  Numbers are kept as
their lexemes (their numeric value never matters to `split_sections`). -/
inductive Jv where
  | jnull : Jv
  | jbool (b : Bool) : Jv
  | jnum (lex : String) : Jv
  | jstr (s : String) : Jv
  | jarr (elems : List Jv) : Jv
  | jobj (fields : List (String × Jv)) : Jv
deriving Repr, Inhabited

/-- JSON insignificant whitespace. -/
def jsonWs (c : Char) : Bool :=
  c = ' ' || c = '\t' || c = '\n' || c = '\r'

/-- Value of one hexadecimal digit. -/
def hexVal (c : Char) : Option Nat :=
  if '0' ≤ c ∧ c ≤ '9' then some (c.toNat - '0'.toNat)
  else if 'a' ≤ c ∧ c ≤ 'f' then some (c.toNat - 'a'.toNat + 10)
  else if 'A' ≤ c ∧ c ≤ 'F' then some (c.toNat - 'A'.toNat + 10)
  else none

/-- Parse the remainder of a JSON string literal (the opening quote already
consumed), handling the escape sequences of the JSON grammar.  `\uXXXX`
escapes are decoded to the scalar value (surrogate pairing is not
modelled); raw control characters are rejected as in strict `json.loads`. -/
def jstrGo : Nat → List Char → List Char → Option (String × List Char)
  | 0, _, _ => none
  | _ + 1, acc, '"' :: rest => some (⟨acc.reverse⟩, rest)
  | fuel + 1, acc, '\\' :: e :: rest =>
    match e with
    | '"' => jstrGo fuel ('"' :: acc) rest
    | '\\' => jstrGo fuel ('\\' :: acc) rest
    | '/' => jstrGo fuel ('/' :: acc) rest
    | 'b' => jstrGo fuel ('\x08' :: acc) rest
    | 'f' => jstrGo fuel ('\x0c' :: acc) rest
    | 'n' => jstrGo fuel ('\n' :: acc) rest
    | 'r' => jstrGo fuel ('\r' :: acc) rest
    | 't' => jstrGo fuel ('\t' :: acc) rest
    | 'u' =>
      match rest with
      | a :: b :: c :: d :: rest2 =>
        match hexVal a, hexVal b, hexVal c, hexVal d with
        | some x, some y, some z, some w =>
          jstrGo fuel (Char.ofNat (x * 4096 + y * 256 + z * 16 + w) :: acc) rest2
        | _, _, _, _ => none
      | _ => none
    | _ => none
  | fuel + 1, acc, c :: rest =>
    if c.toNat < 32 then none else jstrGo fuel (c :: acc) rest
  | _, _, [] => none

/-- Parse a JSON number lexeme
`-? (0 | [1-9][0-9]*) (\.[0-9]+)? ([eE][+-]?[0-9]+)?`; returns
`(lexeme, rest)`. -/
def jnumLex (cs : List Char) : Option (List Char × List Char) :=
  let (sgn, r0) : List Char × List Char :=
    match cs with | '-' :: t => (['-'], t) | _ => ([], cs)
  match r0 with
  | '0' :: r1 => some (sgn ++ ['0'], r1)
  | c :: _ =>
    if c.isDigit then
      some (sgn ++ r0.takeWhile Char.isDigit, r0.dropWhile Char.isDigit)
    else none
  | [] => none

/-- Extend a number lexeme with an optional fraction part. -/
def jnumFrac (lex : List Char) (cs : List Char) : List Char × List Char :=
  match cs with
  | '.' :: r =>
    let d := r.takeWhile Char.isDigit
    if d.isEmpty then (lex, cs) else (lex ++ '.' :: d, r.dropWhile Char.isDigit)
  | _ => (lex, cs)

/-- Extend a number lexeme with an optional exponent part. -/
def jnumExp (lex : List Char) (cs : List Char) : List Char × List Char :=
  match cs with
  | e :: r =>
    if e = 'e' ∨ e = 'E' then
      let (sgn, r1) : List Char × List Char :=
        match r with | s :: t => if s = '+' ∨ s = '-' then ([s], t) else ([], r) | [] => ([], r)
      let d := r1.takeWhile Char.isDigit
      if d.isEmpty then (lex, cs) else (lex ++ e :: sgn ++ d, r1.dropWhile Char.isDigit)
    else (lex, cs)
  | [] => (lex, cs)

/-- Insert a field into a JSON object under construction, with Python dict
semantics: an existing key keeps its position and receives the new value. -/
def objIns (k : String) (v : Jv) : List (String × Jv) → List (String × Jv)
  | [] => [(k, v)]
  | e :: es => if e.1 = k then (k, v) :: es else e :: objIns k v es

mutual

/-- Parse one JSON value (leading whitespace allowed). -/
def jvalGo : Nat → List Char → Option (Jv × List Char)
  | 0, _ => none
  | fuel + 1, cs =>
    match cs.dropWhile jsonWs with
    | [] => none
    | '"' :: rest =>
      match jstrGo (rest.length + 1) [] rest with
      | some (s, r) => some (.jstr s, r)
      | none => none
    | '\x7b' :: rest => jobjGo fuel [] true rest
    | '[' :: rest => jarrGo fuel [] true rest
    | 't' :: rest =>
      match dropLit "rue".data rest with
      | some r => some (.jbool true, r)
      | none => none
    | 'f' :: rest =>
      match dropLit "alse".data rest with
      | some r => some (.jbool false, r)
      | none => none
    | 'n' :: rest =>
      match dropLit "ull".data rest with
      | some r => some (.jnull, r)
      | none => none
    | 'N' :: rest =>
      match dropLit "aN".data rest with
      | some r => some (.jnum "NaN", r)
      | none => none
    | 'I' :: rest =>
      match dropLit "nfinity".data rest with
      | some r => some (.jnum "Infinity", r)
      | none => none
    | '-' :: 'I' :: rest =>
      match dropLit "nfinity".data rest with
      | some r => some (.jnum "-Infinity", r)
      | none => none
    | c :: rest =>
      match jnumLex (c :: rest) with
      | some (lex, r0) =>
        let (lex1, r1) := jnumFrac lex r0
        let (lex2, r2) := jnumExp lex1 r1
        some (.jnum ⟨lex2⟩, r2)
      | none => none

/-- Parse the members of a JSON object after the opening brace; `first` is
true when no member has been consumed yet (allowing an immediate closing
brace). -/
def jobjGo : Nat → List (String × Jv) → Bool → List Char → Option (Jv × List Char)
  | 0, _, _, _ => none
  | fuel + 1, acc, first, cs =>
    match cs.dropWhile jsonWs with
    | '\x7d' :: rest => if first then some (.jobj acc, rest) else none
    | '"' :: rest =>
      match jstrGo (rest.length + 1) [] rest with
      | some (k, r1) =>
        match r1.dropWhile jsonWs with
        | ':' :: r2 =>
          match jvalGo fuel r2 with
          | some (v, r3) =>
            match r3.dropWhile jsonWs with
            | ',' :: r4 => jobjGo fuel (objIns k v acc) false r4
            | '\x7d' :: r4 => some (.jobj (objIns k v acc), r4)
            | _ => none
          | none => none
        | _ => none
      | none => none
    | _ => none

/-- Parse the elements of a JSON array after the opening bracket. -/
def jarrGo : Nat → List Jv → Bool → List Char → Option (Jv × List Char)
  | 0, _, _, _ => none
  | fuel + 1, acc, first, cs =>
    match cs.dropWhile jsonWs with
    | ']' :: rest => if first then some (.jarr acc.reverse, rest) else none
    | _ =>
      match jvalGo fuel cs with
      | some (v, r1) =>
        match r1.dropWhile jsonWs with
        | ',' :: r2 => jarrGo fuel (v :: acc) false r2
        | ']' :: r2 => some (.jarr (v :: acc).reverse, r2)
        | _ => none
      | none => none

end

/-- Model of Python `json.loads`: parse one JSON document, requiring only
whitespace after it. -/
def pyJsonLoads (s : String) : Option Jv :=
  match jvalGo (2 * s.data.length + 4) s.data with
  | some (v, rest) => if rest.dropWhile jsonWs = [] then some v else none
  | none => none

/-- Python `data.get(k, default)`-style lookup on a decoded JSON object. -/
def dictGet (d : List (String × Jv)) (k : String) : Option Jv :=
  (d.find? fun e => e.1 = k).map fun e => e.2

/-- The failure modes of `split_sections`, at the granularity of the Python
exceptions it can raise: the explicit
`ValueError("Payload must be a JSON string or dict")`, a
`json.JSONDecodeError` from `json.loads`, an `AttributeError` from calling
`.get` on a decoded non-object, and a `TypeError` from handing a non-string
requirement value to `re.sub`. -/
inductive PyErr where
  | valueError : PyErr
  | jsonDecodeError : PyErr
  | attributeError : PyErr
  | typeError : PyErr
deriving Repr, DecidableEq

/-- The dynamic type of the `payload` argument: a Python `str`, a Python
`dict` (with string keys and JSON-like values), or any other object. -/
inductive Payload where
  | ofStr (s : String) : Payload
  | ofDict (d : List (String × Jv)) : Payload
  | ofOther : Payload
deriving Repr

/-- The body of `split_sections` once `data` is available:
`document = data.get("REQUIREMENT", "")` followed by the pure section
splitting.  A present non-string value reaches `re.sub`, which raises
`TypeError` in Python. -/
def splitFromData (d : List (String × Jv)) : Except PyErr (List (String × String)) :=
  match dictGet d "REQUIREMENT" with
  | none => .ok (splitSections1 "")
  | some (.jstr doc) => .ok (splitSections1 doc)
  | some _ => .error .typeError

/-- `generator1.py`'s `split_sections` (lines 47-92) including the payload
envelope. -/
def splitSectionsP (p : Payload) : Except PyErr (List (String × String)) :=
  match p with
  | .ofStr s =>
    match pyJsonLoads s with
    | none => .error .jsonDecodeError
    | some (.jobj d) => splitFromData d
    | some _ => .error .attributeError
  | .ofDict d => splitFromData d
  | .ofOther => .error .valueError

/-- Whether a payload is a string that decodes to a JSON object. -/
def parseableJsonObject (p : Payload) : Bool :=
  match p with
  | .ofStr s =>
    match pyJsonLoads s with
    | some (.jobj _) => true
    | _ => false
  | _ => false

/-- Whether a payload is a native mapping. -/
def isDictPayload (p : Payload) : Bool :=
  match p with
  | .ofDict _ => true
  | _ => false

/-- Whether the payload carries a `REQUIREMENT` field holding a non-string
value (the case that reaches `re.sub` with a non-string argument). -/
def badReqField (p : Payload) : Bool :=
  match p with
  | .ofStr s =>
    match pyJsonLoads s with
    | some (.jobj d) =>
      match dictGet d "REQUIREMENT" with
      | none => false
      | some (.jstr _) => false
      | some _ => true
    | _ => false
  | .ofDict d =>
    match dictGet d "REQUIREMENT" with
    | none => false
    | some (.jstr _) => false
    | some _ => true
  | .ofOther => false

/-! ## The Markdown document path: `docx_writer.py`

`generate_doc` (lines 61-153) is a line-oriented state machine writing
blocks into a `docx` document.  The document mutations
(`add_heading`, `add_subheading`, `add_paragraph`, `add_code_block`,
`add_markdown_table`) are modelled as emissions of typed `Block`s into an
output list; each emitted block is tagged with the index of the input line
it arises from (the placeholder heading synthesized for an orphan
subheading carries the index of that subheading line).  The tags are pure
instrumentation: no branch of the machine reads them. -/

/-- One typed block of the produced document. -/
inductive Block where
  | heading (text : String) : Block
  | subheading (text : String) : Block
  | paragraph (spans : List (String × Bool)) : Block
  | codeBlock (lines : List String) : Block
  | table (headers : List String) (rows : List (List String)) : Block
deriving Repr, DecidableEq, Inhabited

/-- Find the lazy closing `**` for an open bold run: the content is the
shortest nonempty prefix (without newline, as `.` does not match `\n`)
followed by `**`.  Returns `(content, rest)`; `none` means no match starts
at this opening position. -/
def findBoldClose : Nat → List Char → List Char → Option (List Char × List Char)
  | 0, _, _ => none
  | _ + 1, acc, '*' :: '*' :: rest =>
    if acc.isEmpty then none else some (acc.reverse, rest)
  | fuel + 1, acc, c :: rest =>
    if c = '\n' then none else findBoldClose fuel (c :: acc) rest
  | _, _, [] => none

/-- Scanner for `add_paragraph` (lines 24-33): walk
`re.finditer(r"\*\*(.+?)\*\*", text)`, emitting a plain span for the text
before each match (possibly empty, as `paragraph.add_run` is called
unconditionally), a bold span for each group, and a final plain span for
the tail.  A failed match attempt advances one character, as the regex
engine does. -/
def boldSpansGo : Nat → List Char → List Char → List (String × Bool)
  | 0, plainAcc, cs => [(⟨plainAcc.reverse ++ cs⟩, false)]
  | fuel + 1, plainAcc, '*' :: '*' :: rest =>
    match findBoldClose (rest.length + 1) [] rest with
    | some (content, rest2) =>
      (⟨plainAcc.reverse⟩, false) :: (⟨content⟩, true) :: boldSpansGo fuel [] rest2
    | none => boldSpansGo fuel ('*' :: plainAcc) ('*' :: rest)
  | fuel + 1, plainAcc, c :: cs => boldSpansGo fuel (c :: plainAcc) cs
  | _, plainAcc, [] => [(⟨plainAcc.reverse⟩, false)]

/-- Inline-emphasis parsing of one paragraph line: the ordered spans
`(text, bold?)` produced by `add_paragraph`. -/
def parseSpans (s : String) : List (String × Bool) :=
  boldSpansGo (s.data.length + 1) [] s.data

/-- Match `section_header_pattern = ^(\d+)\.\s+(.+)$` (line 75) against a
line; returns `(group1, group2)`.  The lines fed to it contain no newline
(they come from `splitlines`) and are pre-stripped; nevertheless the
regex backtracking for a line ending in whitespace (where `(.+)` takes the
final whitespace character) is reproduced for faithfulness. -/
def parseHeading (l : String) : Option (String × String) :=
  if (l.data.takeWhile Char.isDigit).isEmpty then none
  else
    match l.data.dropWhile Char.isDigit with
    | '.' :: r2 =>
      if (r2.takeWhile isPySpace).isEmpty then none
      else if (r2.dropWhile isPySpace).isEmpty then
        match (r2.takeWhile isPySpace).reverse with
        | x :: _ :: _ => some (⟨l.data.takeWhile Char.isDigit⟩, ⟨[x]⟩)
        | _ => none
      else some (⟨l.data.takeWhile Char.isDigit⟩, ⟨r2.dropWhile isPySpace⟩)
    | _ => none

/-- Match `subheading_pattern = ^(\d+)\.(\d+)\s+(.+)$` (line 76); returns
`(group1, group2, group3)`. -/
def parseSub (l : String) : Option (String × String × String) :=
  if (l.data.takeWhile Char.isDigit).isEmpty then none
  else
    match l.data.dropWhile Char.isDigit with
    | '.' :: r2 =>
      if (r2.takeWhile Char.isDigit).isEmpty then none
      else if ((r2.dropWhile Char.isDigit).takeWhile isPySpace).isEmpty then none
      else if ((r2.dropWhile Char.isDigit).dropWhile isPySpace).isEmpty then
        match ((r2.dropWhile Char.isDigit).takeWhile isPySpace).reverse with
        | x :: _ :: _ =>
          some (⟨l.data.takeWhile Char.isDigit⟩, ⟨r2.takeWhile Char.isDigit⟩, ⟨[x]⟩)
        | _ => none
      else
        some (⟨l.data.takeWhile Char.isDigit⟩, ⟨r2.takeWhile Char.isDigit⟩,
          ⟨(r2.dropWhile Char.isDigit).dropWhile isPySpace⟩)
    | _ => none

/-- Match `table_line_pattern = ^\|(.+?)\|$` (line 77): the line starts and
ends with `|`, with at least one interior character and no newline among
the interior characters. -/
def isTableLine (l : String) : Bool :=
  match l.data with
  | '|' :: rest =>
    decide (rest.length ≥ 2) && (rest.getLast? = some '|') && !(rest.dropLast.any (· = '\n'))
  | _ => false

/-- Python `row.split("|")` (single-character separator). -/
def splitBarGo : List Char → List Char → List String
  | acc, [] => [⟨acc.reverse⟩]
  | acc, '|' :: cs => ⟨acc.reverse⟩ :: splitBarGo [] cs
  | acc, c :: cs => splitBarGo (c :: acc) cs

/-- Python `row.split("|")`. -/
def splitBar (s : String) : List String :=
  splitBarGo [] s.data

/-- Header cells of a table:
`[cell.strip(" *") for cell in lines[0].split("|") if cell.strip()]`
(`add_markdown_table`, line 42). -/
def headerCells (row : String) : List String :=
  ((splitBar row).filter fun c => pyStrip c ≠ "").map (pyStripSet [' ', '*'])

/-- Data cells of one table row:
`[cell.strip() for cell in row.split("|") if cell.strip()]` (lines 43-46). -/
def rowCells (row : String) : List String :=
  ((splitBar row).filter fun c => pyStrip c ≠ "").map pyStrip

/-- The Table block committed for a buffer of table lines: headers from the
first line, data rows from the third line on (`lines[2:]`, the second line
being the separator row).  The machine only commits nonempty buffers, so
the empty case is unreachable. -/
def mkTable (lines : List String) : Block :=
  match lines with
  | [] => .table [] []
  | l0 :: _ => .table (headerCells l0) ((lines.drop 2).map rowCells)

/-- Model of writing one data row into the `docx` table
(`add_markdown_table`, lines 52-55): `add_row` yields one cell slot per
header column (initially empty), and `row_cells[i].text = cell` walks the
parsed cells; a cell index beyond the last slot raises `IndexError`. -/
def writeCells : List String → List String → Option (List String)
  | slots, [] => some slots
  | [], _ :: _ => none
  | _ :: ss, c :: cs =>
    match writeCells ss cs with
    | some g => some (c :: g)
    | none => none

/-- Write all data rows (`for row in rows:` loop of `add_markdown_table`);
the first over-long row aborts with the `IndexError`. -/
def writeRows (ncols : Nat) : List (List String) → Except Unit (List (List String))
  | [] => .ok []
  | r :: rs =>
    match writeCells (List.replicate ncols "") r with
    | none => .error ()
    | some g =>
      match writeRows ncols rs with
      | .ok gs => .ok (g :: gs)
      | .error e => .error e

/-- Model of `add_markdown_table(doc, lines)` (lines 41-55) as the grid it
writes into the document: the header row and the padded data rows, or the
`IndexError` failure (`lines[0]` on an empty buffer, or a data row with
more cells than the header row has columns). -/
def addMarkdownTable (lines : List String) : Except Unit (List String × List (List String)) :=
  match lines with
  | [] => .error ()
  | l0 :: _ =>
    let headers := headerCells l0
    match writeRows headers.length ((lines.drop 2).map rowCells) with
    | .ok grid => .ok (headers, grid)
    | .error e => .error e

/-- The mutable state of `generate_doc`'s loop (lines 66-79), with the
output list of emitted blocks.  `cur` is `current_section` paired with the
index of the line that set it; `content`, `tableBuf` pair each buffered
line with its index; `codeTag` is the index of the opening fence of the
current code block. -/
structure St where
  cur : Nat × String := (0, "")
  content : List (Nat × String) := []
  seen : List String := []
  known : List String := []
  inCode : Bool := false
  codeTag : Nat := 0
  codeBuf : List String := []
  inTable : Bool := false
  tableBuf : List (Nat × String) := []
  out : List (Nat × Block) := []
deriving Repr, DecidableEq, Inhabited

/-- The initial state of `generate_doc`. -/
def initSt : St := {}

/-- Tag for a committed table: the index of its first buffered line. -/
def tableTag (buf : List (Nat × String)) : Nat :=
  match buf with
  | [] => 0
  | b :: _ => b.1

/-- `flush_section` (lines 81-88): emit the pending heading if it has not
been emitted before (`seen_sections` dedupes heading text), then one
Paragraph per pending content line, and clear the content buffer. -/
def flushSection (s : St) : St :=
  if s.cur.2 ≠ "" ∧ s.seen.contains s.cur.2 = false then
    { s with
      out := s.out ++ [(s.cur.1, Block.heading s.cur.2)] ++
        s.content.map fun p => (p.1, Block.paragraph (parseSpans p.2)),
      seen := s.seen ++ [s.cur.2],
      content := [] }
  else
    { s with
      out := s.out ++ s.content.map fun p => (p.1, Block.paragraph (parseSpans p.2)),
      content := [] }

/-- The text of the placeholder heading synthesized for an orphan
subheading with main number `n` (`docx_writer.py` line 138). -/
def autoTitle (n : String) : String :=
  n ++ ". (Auto) Section"

/-- One iteration of the `for line in lines:` loop of `generate_doc`
(lines 90-149), on the line with index `il.1` and raw text `il.2`. -/
def stepLine (s : St) (il : Nat × String) : St :=
  if pyStrip il.2 = "" then s
  else if litStarts (pyStrip il.2) "```" then
    if s.inCode then
      { s with inCode := false,
               out := s.out ++ [(s.codeTag, Block.codeBlock s.codeBuf)],
               codeBuf := [] }
    else { s with inCode := true, codeTag := il.1 }
  else if s.inCode then
    { s with codeBuf := s.codeBuf ++ [pyStrip il.2] }
  else if isTableLine (pyStrip il.2) then
    { s with tableBuf := s.tableBuf ++ [(il.1, pyStrip il.2)], inTable := true }
  else if s.inTable then
    { flushSection s with
      out := (flushSection s).out ++
        [(tableTag s.tableBuf, mkTable (s.tableBuf.map fun b => b.2))],
      tableBuf := [], inTable := false }
  else
    match parseHeading (pyStrip il.2) with
    | some (n, t) =>
      { flushSection s with
        cur := (il.1, n ++ ". " ++ t),
        known := (flushSection s).known ++ [n] }
    | none =>
      match parseSub (pyStrip il.2) with
      | some (n, m, t) =>
        if (flushSection s).known.contains n then
          { flushSection s with
            out := (flushSection s).out ++ [(il.1, Block.subheading (n ++ "." ++ m ++ " " ++ t))] }
        else if (flushSection s).seen.contains (autoTitle n) then
          { flushSection s with
            out := (flushSection s).out ++ [(il.1, Block.subheading (n ++ "." ++ m ++ " " ++ t))] }
        else
          { flushSection s with
            out := (flushSection s).out ++ [(il.1, Block.heading (autoTitle n))] ++
              [(il.1, Block.subheading (n ++ "." ++ m ++ " " ++ t))],
            seen := (flushSection s).seen ++ [autoTitle n],
            known := (flushSection s).known ++ [n] }
      | none => { s with content := s.content ++ [(il.1, pyStrip il.2)] }

/-- Python `str.splitlines()` restricted to the `\n`, `\r`, `\r\n`
terminators (no trailing empty line for a trailing terminator). -/
def splitLinesGo : Nat → List Char → List Char → List String
  | 0, acc, cs => [⟨acc.reverse ++ cs⟩]
  | _ + 1, acc, [] => if acc.isEmpty then [] else [⟨acc.reverse⟩]
  | fuel + 1, acc, '\r' :: '\n' :: cs => (⟨acc.reverse⟩ : String) :: splitLinesGo fuel [] cs
  | fuel + 1, acc, '\n' :: cs => (⟨acc.reverse⟩ : String) :: splitLinesGo fuel [] cs
  | fuel + 1, acc, '\r' :: cs => (⟨acc.reverse⟩ : String) :: splitLinesGo fuel [] cs
  | fuel + 1, acc, c :: cs => splitLinesGo fuel (c :: acc) cs

/-- Python `str.splitlines()`. -/
def pySplitlines (s : String) : List String :=
  splitLinesGo (s.data.length + 1) [] s.data

/-- The tagged document model produced by `generate_doc` from a list of
input lines: fold the per-line step over the indexed lines, then perform
the final `flush_section()` (line 152). -/
def generateDocLines (lines : List String) : List (Nat × Block) :=
  (flushSection (lines.enum.foldl stepLine initSt)).out

/-- The tagged document model produced by `generate_doc` from the raw text
(`ts_text.splitlines()`, line 65). -/
def generateDocT (text : String) : List (Nat × Block) :=
  generateDocLines (pySplitlines text)

/-- The untagged document model: the blocks emitted by `generate_doc`, in
emission order. -/
def generateModelLines (lines : List String) : List Block :=
  (generateDocLines lines).map fun b => b.2

/-- The accumulation loop of `generator1.py`'s `split_sections`. -/
def sectionLoop1 (parts : List String) : List (String × String) × Option String :=
  parts.foldl sectionStep1 ([], none)

/-- Whether a `split_sections` run failed (raised any Python exception). -/
def isFailure (e : Except PyErr (List (String × String))) : Bool :=
  match e with
  | .ok _ => false
  | .error _ => true

/-- A line that, after stripping, is nonempty and matches none of the
structural patterns of `generate_doc` (fence, table row, heading,
subheading): such a line reaches the `current_content.append` branch. -/
def isPlainLine (l : String) : Bool :=
  (pyStrip l != "") && !litStarts (pyStrip l) "```" && !isTableLine (pyStrip l) &&
    (parseHeading (pyStrip l)).isNone && (parseSub (pyStrip l)).isNone

/-- The heading texts of the emitted blocks, in emission order. -/
def headTitles (out : List (Nat × Block)) : List String :=
  out.filterMap fun x =>
    match x.2 with
    | Block.heading t => some t
    | _ => none

/-- The heading-uniqueness invariant of the machine state: emitted heading
texts are pairwise distinct and recorded in `seen_sections`; a placeholder
title in `seen_sections`, or pending in `current_section`, has its number
in `known_main_sections`. -/
def InvH (s : St) : Prop :=
  (headTitles s.out).Nodup ∧
  (∀ t ∈ headTitles s.out, t ∈ s.seen) ∧
  (∀ nm : String, nm.data ≠ [] → (∀ c ∈ nm.data, c.isDigit = true) →
    autoTitle nm ∈ s.seen → nm ∈ s.known) ∧
  (∀ nm : String, nm.data ≠ [] → (∀ c ∈ nm.data, c.isDigit = true) →
    s.cur.2 = autoTitle nm → nm ∈ s.known)

/-- The ordering invariant of the machine on fence-free input: every
buffered or emitted item carries the index of the input line it came from,
emitted tags are non-decreasing, all buffered tags dominate all emitted
tags, the pending heading sits between the emitted blocks and its pending
content, and all tags are bounded by the number of lines consumed. -/
structure InvO (i : Nat) (s : St) : Prop where
  outSorted : s.out.Pairwise fun x y => x.1 ≤ y.1
  contentSorted : s.content.Pairwise fun x y => x.1 ≤ y.1
  tbSorted : s.tableBuf.Pairwise fun x y => x.1 ≤ y.1
  outContent : ∀ x ∈ s.out, ∀ y ∈ s.content, x.1 ≤ y.1
  outTb : ∀ x ∈ s.out, ∀ y ∈ s.tableBuf, x.1 ≤ y.1
  contentTb : ∀ x ∈ s.content, ∀ y ∈ s.tableBuf, x.1 ≤ y.1
  liveCur : s.cur.2 ≠ "" → s.seen.contains s.cur.2 = false →
    (∀ x ∈ s.out, x.1 ≤ s.cur.1) ∧ (∀ y ∈ s.content, s.cur.1 ≤ y.1) ∧
    (∀ y ∈ s.tableBuf, s.cur.1 ≤ y.1)
  outBelow : ∀ x ∈ s.out, x.1 ≤ i
  contentBelow : ∀ x ∈ s.content, x.1 ≤ i
  tbBelow : ∀ x ∈ s.tableBuf, x.1 ≤ i
  curBelow : s.cur.1 ≤ i
  tbEmpty : s.inTable = false → s.tableBuf = []
  tbFull : s.inTable = true → s.tableBuf ≠ []
  code : s.inCode = false

/-! ## Lemmas about the ordered dictionary of `split_sections` -/

/-- `result[k] += v` does not change the key sequence. -/
theorem alAppendVal_map_fst (k v : String) (l : List (String × String)) :
    (alAppendVal k v l).map Prod.fst = l.map Prod.fst := by
  induction l with
  | nil => rfl
  | cons e es ih =>
    by_cases h : e.1 = k <;> simp [alAppendVal, h, ih]

/-- `result[k] += v` appends `v` to the value stored at `k`. -/
theorem alGet_alAppendVal (k v : String) (l : List (String × String)) :
    alGet k (alAppendVal k v l) = (alGet k l).map (· ++ v) := by
  induction l with
  | nil => rfl
  | cons e es ih =>
    by_cases h : e.1 = k
    · simp [alAppendVal, alGet, h]
    · simpa [alAppendVal, alGet, h] using ih

/-- A key occurring in the key sequence has a stored value. -/
theorem alGet_isSome_of_mem {k : String} {l : List (String × String)}
    (h : k ∈ l.map Prod.fst) : ∃ v, alGet k l = some v := by
  induction l with
  | nil => simp at h
  | cons e es ih =>
    by_cases he : e.1 = k
    · exact ⟨e.2, by simp [alGet, he]⟩
    · rcases ih (by
        rcases List.mem_cons.mp h with h1 | h1
        · exact absurd h1.symm he
        · exact h1) with ⟨v, hv⟩
      exact ⟨v, by simpa [alGet, he] using hv⟩

/-- `alMember` agrees with membership in the key sequence. -/
theorem alMember_iff (k : String) (l : List (String × String)) :
    alMember k l = true ↔ k ∈ l.map Prod.fst := by
  simp [alMember, List.any_eq_true, List.mem_map]

/-- One step of the loop keeps the key sequence duplicate-free. -/
theorem sectionStep1_keys_nodup {st : List (String × String) × Option String}
    (h : (st.1.map Prod.fst).Nodup) (part : String) :
    (((sectionStep1 st part)).1.map Prod.fst).Nodup := by
  unfold sectionStep1
  split
  · exact h
  · split
    · split
      · rename_i g _ _
        split
        · exact h
        · rename_i hmem
          simp only [List.map_append, List.map_cons, List.map_nil]
          rw [List.nodup_append]
          refine ⟨h, List.nodup_singleton _, ?_⟩
          intro a ha hb
          rw [List.mem_singleton] at hb
          subst hb
          exact hmem (by rw [alMember_iff]; exact ha)
      · exact h
    · split
      · rename_i k _
        rw [alAppendVal_map_fst]
        exact h
      · exact h

/-- One step of the loop keeps the current key (when set) present in the
key sequence. -/
theorem sectionStep1_curKey {st : List (String × String) × Option String}
    (h : ∀ k, st.2 = some k → k ∈ st.1.map Prod.fst) (part : String) :
    ∀ k, (sectionStep1 st part).2 = some k → k ∈ (sectionStep1 st part).1.map Prod.fst := by
  unfold sectionStep1
  split
  · exact h
  · split
    · split
      · rename_i g _ _
        intro k hk
        simp only at hk
        split
        · rename_i hmem
          rw [← (Option.some.injEq _ _).mp hk, ← alMember_iff]
          exact hmem
        · simp only [List.map_append, List.map_cons, List.map_nil, List.mem_append,
            List.mem_singleton]
          right
          exact ((Option.some.injEq _ _).mp hk).symm
      · exact h
    · split
      · rename_i k0 _
        intro k hk
        rw [alAppendVal_map_fst]
        exact h k hk
      · exact h

/-- The loop keeps the key sequence duplicate-free. -/
theorem sectionLoop1_keys_nodup (parts : List String) :
    ((sectionLoop1 parts).1.map Prod.fst).Nodup := by
  suffices H : ∀ (ps : List String) (st : List (String × String) × Option String),
      (st.1.map Prod.fst).Nodup → (∀ k, st.2 = some k → k ∈ st.1.map Prod.fst) →
      ((ps.foldl sectionStep1 st).1.map Prod.fst).Nodup by
    exact H parts ([], none) (by simp) (by simp)
  intro ps
  induction ps with
  | nil => intro st h _; exact h
  | cons p ps ih =>
    intro st h hcur
    exact ih _ (sectionStep1_keys_nodup h p) (sectionStep1_curKey hcur p)

/-- The loop keeps the current key (when set) present in the key
sequence. -/
theorem sectionLoop1_curKey (parts : List String) :
    ∀ k, (sectionLoop1 parts).2 = some k → k ∈ (sectionLoop1 parts).1.map Prod.fst := by
  suffices H : ∀ (ps : List String) (st : List (String × String) × Option String),
      (∀ k, st.2 = some k → k ∈ st.1.map Prod.fst) →
      ∀ k, (ps.foldl sectionStep1 st).2 = some k → k ∈ (ps.foldl sectionStep1 st).1.map Prod.fst by
    exact H parts ([], none) (by simp)
  intro ps
  induction ps with
  | nil => intro st h; exact h
  | cons p ps ih =>
    intro st h
    exact ih _ (sectionStep1_curKey h p)

/-! ## Claim C1 -/

/-- C1: the payload
`{"REQUIREMENT": "SECTION:1. Purpose\nDo X.\nSECTION 2. Scope\nDo Y.\n"}`
splits into the ordered mapping
`{"SECTION: 1. Purpose": "Do X.\n", "SECTION: 2. Scope": "Do Y.\n"}`:
both header variants are normalized to the canonical label form and each
body is trimmed and newline-terminated. -/
theorem claim1_scenario4 :
    splitSectionsP (.ofStr "\x7b\"REQUIREMENT\": \"SECTION:1. Purpose\\nDo X.\\nSECTION 2. Scope\\nDo Y.\\n\"\x7d") =
      .ok [("SECTION: 1. Purpose", "Do X.\n"), ("SECTION: 2. Scope", "Do Y.\n")] := rfl

/-! ## Claim C2 -/

/-- C2 (amended): in `generator1.py`'s `split_sections`, each canonical
label appears as a key at most once (for every input document), and a body
part processed while an existing label is current appends to that entry's
stored body, leaving the key sequence (hence insertion order) unchanged.
(`generator3.py`'s variant instead resets the entry on a repeated label,
see the counterexample.) -/
theorem claim2_section_map_accumulation :
    (∀ doc : String, ((splitSections1 doc).map Prod.fst).Nodup) ∧
    (∀ (parts : List String) (b k : String),
      (sectionLoop1 parts).2 = some k →
      pyStrip b ≠ "" →
      litStarts (pyStrip b) "SECTION:" = false →
      ((sectionLoop1 (parts ++ [b])).1.map Prod.fst = (sectionLoop1 parts).1.map Prod.fst ∧
        ∃ old, alGet k (sectionLoop1 parts).1 = some old ∧
          alGet k (sectionLoop1 (parts ++ [b])).1 = some (old ++ (pyStrip b ++ "\n")))) := by
  constructor
  · intro doc
    exact sectionLoop1_keys_nodup _
  · intro parts b k hcur hb hsec
    have hfold : sectionLoop1 (parts ++ [b]) = sectionStep1 (sectionLoop1 parts) b := by
      simp [sectionLoop1, List.foldl_append]
    have hkmem := sectionLoop1_curKey parts k hcur
    obtain ⟨old, hold⟩ := alGet_isSome_of_mem hkmem
    have hstep : sectionStep1 (sectionLoop1 parts) b =
        (alAppendVal k (pyStrip b ++ "\n") (sectionLoop1 parts).1, (sectionLoop1 parts).2) := by
      unfold sectionStep1
      rw [if_neg hb, if_neg (by simp [hsec]), hcur]
    rw [hfold, hstep]
    refine ⟨alAppendVal_map_fst _ _ _, old, hold, ?_⟩
    rw [alGet_alAppendVal, hold]
    rfl

/-- C2 witness: after the single header part `"SECTION: 1. Purpose"`, a
body part appends to the existing entry without changing the keys. -/
theorem claim2_witness :
    ((sectionLoop1 (["SECTION: 1. Purpose"] ++ ["more body"])).1.map Prod.fst =
      (sectionLoop1 ["SECTION: 1. Purpose"]).1.map Prod.fst ∧
    ∃ old, alGet "SECTION: 1. Purpose" (sectionLoop1 ["SECTION: 1. Purpose"]).1 = some old ∧
      alGet "SECTION: 1. Purpose" (sectionLoop1 (["SECTION: 1. Purpose"] ++ ["more body"])).1 =
        some (old ++ (pyStrip "more body" ++ "\n"))) :=
  claim2_section_map_accumulation.2 ["SECTION: 1. Purpose"] "more body" "SECTION: 1. Purpose"
    (by decide) (by decide) (by decide)

/-- C2 counterexample: `generator3.py`'s `split_sections` does not append
on a repeated label — the second occurrence of `SECTION: 1. Purpose`
resets the stored body, so the first body `"A.\n"` is lost instead of the
entry holding `"A.\nC.\n"`. -/
theorem claim2_counterexample :
    splitSections3 "SECTION: 1. Purpose\nA.\nSECTION: 2. Scope\nB.\nSECTION: 1. Purpose\nC.\n" =
      [("SECTION: 1. Purpose", "C.\n"), ("SECTION: 2. Scope", "B.\n")] ∧
    alGet "SECTION: 1. Purpose"
        (splitSections3 "SECTION: 1. Purpose\nA.\nSECTION: 2. Scope\nB.\nSECTION: 1. Purpose\nC.\n") ≠
      some "A.\nC.\n" :=
  ⟨rfl, by decide⟩

/-! ## Claim C4 -/

/-- C4 counterexample: the Normalizer is not idempotent — re-running it on
its own output for `"SECTION: 1. A"` changes the text. -/
theorem claim4_counterexample :
    normalizeDoc (normalizeDoc "SECTION: 1. A") ≠ normalizeDoc "SECTION: 1. A" := by
  decide

/-- C4 (amended): pass 3 appends a newline after every canonical header
unconditionally, so re-running the Normalizer on its own output leaves the
header tokens canonical but appends one more newline per header: on
`"SECTION: 1. A"` the first run yields `"\nSECTION: 1. A\n"` and the second
run yields exactly that text with one additional newline. -/
theorem claim4_amended :
    normalizeDoc "SECTION: 1. A" = "\nSECTION: 1. A\n" ∧
    normalizeDoc (normalizeDoc "SECTION: 1. A") = normalizeDoc "SECTION: 1. A" ++ "\n" :=
  ⟨rfl, rfl⟩

/-! ## Claim C7 -/

/-- C7 counterexample: a native mapping whose `REQUIREMENT` value is a
number is a mapping, yet `split_sections` fails on it (`re.sub` receives a
non-string), contradicting "fails exactly when the input is neither a
parseable JSON object nor a mapping". -/
theorem claim7_counterexample :
    splitSectionsP (.ofDict [("REQUIREMENT", Jv.jnum "1")]) = .error .typeError ∧
    isDictPayload (.ofDict [("REQUIREMENT", Jv.jnum "1")]) = true :=
  ⟨rfl, rfl⟩

/-- C7 (amended): `split_sections` fails exactly when the input is neither
a string decoding to a JSON object nor a mapping, or when the
`REQUIREMENT` field is present with a non-string value; in particular a
mapping lacking the requirement key succeeds with the empty SectionMap. -/
theorem claim7_amended :
    (∀ p : Payload, isFailure (splitSectionsP p) = true ↔
      ((parseableJsonObject p = false ∧ isDictPayload p = false) ∨ badReqField p = true)) ∧
    (∀ d : List (String × Jv), dictGet d "REQUIREMENT" = none →
      splitSectionsP (.ofDict d) = .ok []) := by
  constructor
  · intro p
    cases p with
    | ofStr s =>
      cases hj : pyJsonLoads s with
      | none => simp [splitSectionsP, parseableJsonObject, isDictPayload, badReqField,
          isFailure, hj]
      | some v =>
        cases v with
        | jobj d =>
          cases hg : dictGet d "REQUIREMENT" with
          | none => simp [splitSectionsP, parseableJsonObject, isDictPayload, badReqField,
              isFailure, splitFromData, hj, hg]
          | some w =>
            cases w <;> simp [splitSectionsP, parseableJsonObject, isDictPayload, badReqField,
              isFailure, splitFromData, hj, hg]
        | jnull => simp [splitSectionsP, parseableJsonObject, isDictPayload, badReqField,
            isFailure, hj]
        | jbool b => simp [splitSectionsP, parseableJsonObject, isDictPayload, badReqField,
            isFailure, hj]
        | jnum lex => simp [splitSectionsP, parseableJsonObject, isDictPayload, badReqField,
            isFailure, hj]
        | jstr t => simp [splitSectionsP, parseableJsonObject, isDictPayload, badReqField,
            isFailure, hj]
        | jarr es => simp [splitSectionsP, parseableJsonObject, isDictPayload, badReqField,
            isFailure, hj]
    | ofDict d =>
      cases hg : dictGet d "REQUIREMENT" with
      | none => simp [splitSectionsP, parseableJsonObject, isDictPayload, badReqField,
          isFailure, splitFromData, hg]
      | some w =>
        cases w <;> simp [splitSectionsP, parseableJsonObject, isDictPayload, badReqField,
          isFailure, splitFromData, hg]
    | ofOther => simp [splitSectionsP, parseableJsonObject, isDictPayload, badReqField, isFailure]
  · intro d hg
    show splitFromData d = _
    simp only [splitFromData, hg]
    rfl

/-- C7 witness: the empty mapping lacks the requirement key and splits to
the empty SectionMap; and the failure characterization applied at a
concrete non-mapping payload. -/
theorem claim7_witness :
    splitSectionsP (.ofDict []) = .ok [] ∧
    (isFailure (splitSectionsP .ofOther) = true ↔
      ((parseableJsonObject .ofOther = false ∧ isDictPayload .ofOther = false) ∨
        badReqField .ofOther = true)) :=
  ⟨claim7_amended.2 [] rfl, claim7_amended.1 .ofOther⟩

/-! ## Claim C9 -/

/-- Writing a row whose cell count is at most the column count fills the
leading slots and leaves the remaining slots empty. -/
theorem writeCells_of_le {r : List String} :
    ∀ {n : Nat}, r.length ≤ n →
      writeCells (List.replicate n "") r = some (r ++ List.replicate (n - r.length) "") := by
  induction r with
  | nil => intro n _; simp [writeCells]
  | cons c cs ih =>
    intro n h
    cases n with
    | zero => simp at h
    | succ m =>
      rw [List.replicate_succ]
      simp only [writeCells, List.length_cons]
      rw [ih (Nat.le_of_succ_le_succ h)]
      simp [Nat.succ_sub_succ]

/-- Writing all rows succeeds when every row fits the column count. -/
theorem writeRows_of_le {n : Nat} {rows : List (List String)}
    (h : ∀ r ∈ rows, r.length ≤ n) :
    writeRows n rows = .ok (rows.map fun r => r ++ List.replicate (n - r.length) "") := by
  induction rows with
  | nil => rfl
  | cons r rs ih =>
    simp only [writeRows]
    rw [writeCells_of_le (h r (List.mem_cons_self r rs)),
      ih fun x hx => h x (List.mem_cons_of_mem r hx)]
    rfl

/-- C9 (amended): committing a table succeeds whenever every data row has
at most as many cells as the header row, short rows simply leaving their
trailing cells empty; a data row with more cells than the header row makes
the commit fail with an `IndexError` (see the counterexample). -/
theorem claim9_amended (l0 : String) (rest : List String)
    (h : ∀ r ∈ ((l0 :: rest).drop 2).map rowCells, r.length ≤ (headerCells l0).length) :
    addMarkdownTable (l0 :: rest) =
      .ok (headerCells l0,
        (((l0 :: rest).drop 2).map rowCells).map
          fun r => r ++ List.replicate ((headerCells l0).length - r.length) "") := by
  simp only [addMarkdownTable]
  rw [writeRows_of_le h]

/-- C9 witness: a ragged-short data row under a two-column header commits
successfully, the missing cell staying empty. -/
theorem claim9_witness :
    addMarkdownTable ["|a|b|", "|-|-|", "|x|"] = .ok (["a", "b"], [["x", ""]]) := by
  rw [claim9_amended "|a|b|" ["|-|-|", "|x|"] (by decide)]
  rfl

/-- C9 counterexample: a data row with more cells than the header row makes
`add_markdown_table` fail (`IndexError` on `row_cells[i]`), so committing a
table is not failure-free for every row shape. -/
theorem claim9_counterexample :
    addMarkdownTable ["|h|", "|-|", "|a|b|"] = .error () := rfl

/-! ## Structural lemmas about the `generate_doc` machine -/

/-- `flush_section` leaves `current_section` unchanged. -/
theorem flushSection_cur (s : St) : (flushSection s).cur = s.cur := by
  unfold flushSection; split <;> rfl

/-- `flush_section` leaves `known_main_sections` unchanged. -/
theorem flushSection_known (s : St) : (flushSection s).known = s.known := by
  unfold flushSection; split <;> rfl

/-- `flush_section` clears the pending-content buffer. -/
theorem flushSection_content (s : St) : (flushSection s).content = [] := by
  unfold flushSection; split <;> rfl

/-- `flush_section` leaves the code-block state unchanged. -/
theorem flushSection_inCode (s : St) : (flushSection s).inCode = s.inCode := by
  unfold flushSection; split <;> rfl

/-- `flush_section` leaves the table state unchanged. -/
theorem flushSection_inTable (s : St) : (flushSection s).inTable = s.inTable := by
  unfold flushSection; split <;> rfl

/-- `flush_section` leaves the table buffer unchanged. -/
theorem flushSection_tableBuf (s : St) : (flushSection s).tableBuf = s.tableBuf := by
  unfold flushSection; split <;> rfl

/-- `flush_section` leaves the code buffer unchanged. -/
theorem flushSection_codeBuf (s : St) : (flushSection s).codeBuf = s.codeBuf := by
  unfold flushSection; split <;> rfl

/-- `flush_section` only grows `seen_sections`. -/
theorem flushSection_seen_mono {t : String} {s : St} (h : t ∈ s.seen) :
    t ∈ (flushSection s).seen := by
  unfold flushSection; split
  · exact List.mem_append_left _ h
  · exact h

/-- The document is only appended to by `flush_section`. -/
theorem flushSection_out_pfx (s : St) : s.out <+: (flushSection s).out := by
  unfold flushSection; split
  · exact (List.prefix_append _ _).trans (List.prefix_append _ _)
  · exact List.prefix_append _ _

/-- The document is only appended to by one loop iteration. -/
theorem stepLine_out_pfx (s : St) (il : Nat × String) : s.out <+: (stepLine s il).out := by
  unfold stepLine
  repeat' split
  all_goals
    first
      | exact List.prefix_rfl
      | exact List.prefix_append _ _
      | exact (flushSection_out_pfx s).trans (List.prefix_append _ _)
      | exact ((flushSection_out_pfx s).trans (List.prefix_append _ _)).trans
          (List.prefix_append _ _)
      | exact flushSection_out_pfx s

/-- The document is only appended to across the whole loop. -/
theorem foldl_out_pfx (ils : List (Nat × String)) :
    ∀ s : St, s.out <+: (ils.foldl stepLine s).out := by
  induction ils with
  | nil => intro s; exact List.prefix_rfl
  | cons p ps ih =>
    intro s
    exact (stepLine_out_pfx s p).trans (ih (stepLine s p))

/-- `known_main_sections` only grows in one loop iteration. -/
theorem stepLine_known_mono {n : String} {s : St} (h : n ∈ s.known) (il : Nat × String) :
    n ∈ (stepLine s il).known := by
  unfold stepLine
  repeat' split
  all_goals
    first
      | exact h
      | (rw [flushSection_known]; exact h)
      | (rw [flushSection_known]; exact List.mem_append_left _ h)

/-- `known_main_sections` only grows across the whole loop. -/
theorem foldl_known_mono (ils : List (Nat × String)) {n : String} :
    ∀ s : St, n ∈ s.known → n ∈ (ils.foldl stepLine s).known := by
  induction ils with
  | nil => intro s h; exact h
  | cons p ps ih =>
    intro s h
    exact ih (stepLine s p) (stepLine_known_mono h p)

/-! ## Classification lemmas for stripped lines -/

/-- A nonempty `takeWhile` result starts the list and satisfies the
predicate. -/
theorem takeWhile_head {p : Char → Bool} {l : List Char} {c : Char} {cs : List Char}
    (h : l.takeWhile p = c :: cs) : (∃ t, l = c :: t) ∧ p c = true := by
  cases l with
  | nil => simp at h
  | cons a as =>
    rw [List.takeWhile_cons] at h
    by_cases hp : p a
    · rw [if_pos hp] at h
      obtain ⟨rfl, -⟩ := List.cons.inj h
      exact ⟨⟨as, rfl⟩, hp⟩
    · rw [if_neg hp] at h
      simp at h

/-- A string whose character list is nonempty is not the empty string. -/
theorem ne_empty_of_data {l : String} {c : Char} {t : List Char} (hd : l.data = c :: t) :
    l ≠ "" := by
  intro he
  subst he
  simp at hd

/-- A line whose first character is not a backquote does not start a code
fence. -/
theorem litStarts_fence_false {l : String} {c : Char} {t : List Char}
    (hd : l.data = c :: t) (hc : c ≠ '`') : litStarts l "```" = false := by
  simp [litStarts, hd, dropLit, hc]

/-- A line whose first character is not a pipe is not a table row. -/
theorem isTableLine_false_of_head {l : String} {c : Char} {t : List Char}
    (hd : l.data = c :: t) (hc : c ≠ '|') : isTableLine l = false := by
  unfold isTableLine
  rw [hd]
  split
  · next heq =>
    obtain ⟨h1, -⟩ := List.cons.inj heq
    exact absurd h1 hc
  · rfl

/-- A table row is a nonempty line. -/
theorem isTableLine_head {l : String} (h : isTableLine l = true) :
    ∃ t, l.data = '|' :: t := by
  unfold isTableLine at h
  split at h
  · next heq => exact ⟨_, heq⟩
  · exact absurd h (by simp)

/-- A digit character is not whitespace. -/
theorem isPySpace_false_of_digit {c : Char} (h : c.isDigit = true) : isPySpace c = false := by
  by_contra hsp
  rw [Bool.not_eq_false] at hsp
  simp only [isPySpace, Bool.or_eq_true, decide_eq_true_eq] at hsp
  rcases hsp with ((((rfl | rfl) | rfl) | rfl) | rfl) | rfl <;> exact absurd h (by decide)

/-- A digit character is not a backquote and not a pipe. -/
theorem digit_ne_fence_pipe {c : Char} (h : c.isDigit = true) : c ≠ '`' ∧ c ≠ '|' := by
  constructor <;> rintro rfl <;> exact absurd h (by decide)


/-- The number group of a matched heading line is the digit prefix of the
line, and that prefix is nonempty. -/
theorem parseHeading_num {l n t : String} (h : parseHeading l = some (n, t)) :
    n.data = l.data.takeWhile Char.isDigit ∧
      (l.data.takeWhile Char.isDigit).isEmpty = false := by
  unfold parseHeading at h
  split at h
  · exact absurd h (by simp)
  · next hne =>
    refine ⟨?_, by simpa using hne⟩
    split at h
    · split at h
      · exact absurd h (by simp)
      · split at h
        · split at h
          · simp only [Option.some.injEq, Prod.mk.injEq] at h
            rw [← h.1]
          · exact absurd h (by simp)
        · simp only [Option.some.injEq, Prod.mk.injEq] at h
          rw [← h.1]
    · exact absurd h (by simp)

/-- The main-number group of a matched subheading line is the digit prefix
of the line, and that prefix is nonempty. -/
theorem parseSub_num {l n m t : String} (h : parseSub l = some (n, m, t)) :
    n.data = l.data.takeWhile Char.isDigit ∧
      (l.data.takeWhile Char.isDigit).isEmpty = false := by
  unfold parseSub at h
  split at h
  · exact absurd h (by simp)
  · next hne =>
    refine ⟨?_, by simpa using hne⟩
    split at h
    · split at h
      · exact absurd h (by simp)
      · split at h
        · exact absurd h (by simp)
        · split at h
          · split at h
            · simp only [Option.some.injEq, Prod.mk.injEq] at h
              rw [← h.1]
            · exact absurd h (by simp)
          · simp only [Option.some.injEq, Prod.mk.injEq] at h
            rw [← h.1]
    · exact absurd h (by simp)

/-- A nonempty digit prefix means the line starts with a digit. -/
theorem head_digit_of_takeWhile {l : List Char}
    (h : (l.takeWhile Char.isDigit).isEmpty = false) :
    ∃ c cs, l = c :: cs ∧ c.isDigit = true := by
  rcases hcs : l.takeWhile Char.isDigit with _ | ⟨c, cs⟩
  · rw [hcs] at h; simp at h
  · obtain ⟨⟨t0, ht0⟩, hpc⟩ := takeWhile_head hcs
    exact ⟨c, t0, ht0, hpc⟩

/-- The heading pattern does not match a subheading line: after the digit
prefix and the dot, a subheading continues with a digit, where the heading
pattern requires whitespace. -/
theorem parseHeading_none_of_parseSub {l n m t : String}
    (h : parseSub l = some (n, m, t)) : parseHeading l = none := by
  unfold parseSub at h
  split at h
  · exact absurd h (by simp)
  · next hne =>
    split at h
    · next r2 heq =>
      split at h
      · exact absurd h (by simp)
      · next hne2 =>
        obtain ⟨c2, cs2, hc2, hd2⟩ := head_digit_of_takeWhile (by simpa using hne2)
        have hw : r2.takeWhile isPySpace = [] := by
          rw [hc2, List.takeWhile_cons, if_neg (by simp [isPySpace_false_of_digit hd2])]
        unfold parseHeading
        rw [if_neg hne]
        split
        · next r2a heq2 =>
          rw [heq] at heq2
          obtain ⟨-, hr⟩ := List.cons.inj heq2
          rw [← hr, hw]
          simp
        · rfl
    · exact absurd h (by simp)

/-! ## Fold lemmas for runs of uniform lines -/

/-- Processing one plain line appends it (stripped) to the pending-content
buffer and changes nothing else. -/
theorem stepLine_plain {s : St} {il : Nat × String} (hp : isPlainLine il.2 = true)
    (hc : s.inCode = false) (ht : s.inTable = false) :
    stepLine s il = { s with content := s.content ++ [(il.1, pyStrip il.2)] } := by
  have h5 := hp
  simp only [isPlainLine, Bool.and_eq_true, bne_iff_ne, ne_eq, Bool.not_eq_true',
    Option.isNone_iff_eq_none] at h5
  obtain ⟨⟨⟨⟨h1, h2⟩, h3⟩, h4⟩, h6⟩ := h5
  unfold stepLine
  rw [if_neg h1, if_neg (by simp [h2]), if_neg (by simp [hc]), if_neg (by simp [h3]),
    if_neg (by simp [ht]), h4, h6]

/-- Folding a run of plain lines accumulates them (stripped, tagged) in the
pending-content buffer. -/
theorem foldl_plain (pre : List (Nat × String)) :
    ∀ s : St, (∀ p ∈ pre, isPlainLine p.2 = true) → s.inCode = false → s.inTable = false →
      pre.foldl stepLine s = { s with content := s.content ++ pre.map fun p => (p.1, pyStrip p.2) } := by
  induction pre with
  | nil => intro s _ _ _; simp
  | cons p ps ih =>
    intro s hpre hc ht
    rw [List.foldl_cons, stepLine_plain (hpre p (List.mem_cons_self p ps)) hc ht,
      ih { s with content := s.content ++ [(p.1, pyStrip p.2)] }
        (fun q hq => hpre q (List.mem_cons_of_mem p hq)) hc ht]
    simp

/-- Processing one nonblank, non-fence line while inside a code block
appends its stripped text to the code buffer. -/
theorem stepLine_inCode {s : St} {il : Nat × String}
    (hf : litStarts (pyStrip il.2) "```" = false) (hc : s.inCode = true) :
    stepLine s il = if pyStrip il.2 = "" then s
      else { s with codeBuf := s.codeBuf ++ [pyStrip il.2] } := by
  by_cases hb : pyStrip il.2 = ""
  · rw [if_pos hb]; unfold stepLine; rw [if_pos hb]
  · rw [if_neg hb]; unfold stepLine; rw [if_neg hb, if_neg (by simp [hf]), if_pos (by simp [hc])]

/-- Folding a run of non-fence lines while inside a code block appends
their stripped nonblank texts to the code buffer and changes nothing
else. -/
theorem foldl_inCode (body : List (Nat × String)) :
    ∀ s : St, (∀ p ∈ body, litStarts (pyStrip p.2) "```" = false) → s.inCode = true →
      body.foldl stepLine s =
        { s with codeBuf := s.codeBuf ++ (body.map fun p => pyStrip p.2).filter (· ≠ "") } := by
  induction body with
  | nil => intro s _ _; simp
  | cons p ps ih =>
    intro s hbody hc
    rw [List.foldl_cons, stepLine_inCode (hbody p (List.mem_cons_self p ps)) hc]
    by_cases hb : pyStrip p.2 = ""
    · rw [if_pos hb, ih s (fun q hq => hbody q (List.mem_cons_of_mem p hq)) hc]
      simp [hb]
    · rw [if_neg hb, ih { s with codeBuf := s.codeBuf ++ [pyStrip p.2] }
        (fun q hq => hbody q (List.mem_cons_of_mem p hq)) hc]
      simp [hb]

/-- Processing one table row (outside a code block) appends it to the table
buffer and sets the table flag. -/
theorem stepLine_pipe {s : St} {il : Nat × String}
    (hp : isTableLine (pyStrip il.2) = true) (hc : s.inCode = false) :
    stepLine s il = { s with tableBuf := s.tableBuf ++ [(il.1, pyStrip il.2)], inTable := true } := by
  obtain ⟨t0, ht0⟩ := isTableLine_head hp
  have hb : pyStrip il.2 ≠ "" := ne_empty_of_data ht0
  have hf : litStarts (pyStrip il.2) "```" = false :=
    litStarts_fence_false ht0 (by decide)
  unfold stepLine
  rw [if_neg hb, if_neg (by simp [hf]), if_neg (by simp [hc]), if_pos (by simp [hp])]

/-- Folding a run of table rows only fills the table buffer: the document,
the pending heading and the pending content are untouched, and the machine
stays outside code blocks. -/
theorem foldl_allPipe (rows : List (Nat × String)) :
    ∀ s : St, (∀ p ∈ rows, isTableLine (pyStrip p.2) = true) → s.inCode = false →
      ((rows.foldl stepLine s).out = s.out ∧ (rows.foldl stepLine s).cur = s.cur ∧
        (rows.foldl stepLine s).content = s.content ∧ (rows.foldl stepLine s).inCode = false) := by
  induction rows with
  | nil => intro s _ hc; exact ⟨rfl, rfl, rfl, hc⟩
  | cons p ps ih =>
    intro s hrows hc
    rw [List.foldl_cons, stepLine_pipe (hrows p (List.mem_cons_self p ps)) hc]
    exact ih _ (fun q hq => hrows q (List.mem_cons_of_mem p hq)) hc

/-- The second component of an indexed line is one of the lines. -/
theorem mem_of_mem_enumFrom {α : Type} {p : Nat × α} {n : Nat} {l : List α}
    (hp : p ∈ l.enumFrom n) : p.2 ∈ l := by
  have h := List.mem_map_of_mem Prod.snd hp
  rwa [List.enumFrom_map_snd] at h

/-- Mapping a function of the line text over indexed lines forgets the
indices. -/
theorem enumFrom_map_snd_comp {α β : Type} (f : α → β) (n : Nat) (l : List α) :
    (l.enumFrom n).map (fun p => f p.2) = l.map f := by
  rw [show (fun p : Nat × α => f p.2) = f ∘ Prod.snd from rfl, ← List.map_map,
    List.enumFrom_map_snd]

/-- `flush_section` with no pending heading only converts the pending
content into paragraphs. -/
theorem flushSection_noHeading {s : St} (hc : s.cur.2 = "") :
    flushSection s =
      { s with out := s.out ++ s.content.map fun p => (p.1, Block.paragraph (parseSpans p.2)),
               content := [] } := by
  unfold flushSection
  rw [if_neg (by rw [hc]; simp)]

/-! ## Claim C3 -/

/-- C3 (amended): after the last input line only `flush_section()` runs, so
pending heading/paragraph content is flushed, but a still-open code-block
buffer or table buffer is discarded, not committed: a document consisting
of an opening fence and unterminated code lines produces no blocks at all,
and a document consisting solely of table rows (never followed by a
non-row line) produces no blocks at all; pending plain content is still
flushed at end of input. -/
theorem claim3_amended :
    (∀ tail : List String, (∀ l ∈ tail, litStarts (pyStrip l) "```" = false) →
      generateModelLines ("```" :: tail) = []) ∧
    (∀ rows : List String, (∀ l ∈ rows, isTableLine (pyStrip l) = true) →
      generateModelLines rows = []) ∧
    generateModelLines ["1. T", "x"] = [Block.heading "1. T", Block.paragraph (parseSpans "x")] := by
  refine ⟨?_, ?_, rfl⟩
  · intro tail h
    unfold generateModelLines generateDocLines
    rw [show ("```" :: tail).enum = (0, "```") :: tail.enumFrom 1 from rfl, List.foldl_cons,
      show stepLine initSt (0, "```") = { initSt with inCode := true, codeTag := 0 } from rfl,
      foldl_inCode (tail.enumFrom 1) { initSt with inCode := true, codeTag := 0 }
        (fun p hp => h p.2 (mem_of_mem_enumFrom hp)) rfl]
    rw [flushSection_noHeading rfl]
    rfl
  · intro rows h
    unfold generateModelLines generateDocLines
    obtain ⟨ho, hcur, hcont, -⟩ :=
      foldl_allPipe rows.enum initSt
        (fun p hp => h p.2 (mem_of_mem_enumFrom (n := 0)
          (by rwa [← List.enum_eq_enumFrom]))) rfl
    rw [flushSection_noHeading (by rw [hcur]; rfl)]
    simp only [ho, hcont]
    rfl

/-- C3 witness: the discard conclusions at concrete inputs. -/
theorem claim3_witness :
    generateModelLines ["```", "orphan code line"] = [] ∧
    generateModelLines ["|a|b|"] = [] :=
  ⟨claim3_amended.1 ["orphan code line"] (by decide),
   claim3_amended.2.1 ["|a|b|"] (by decide)⟩

/-- C3 counterexample: an unterminated code fence and an unterminated table
buffer are discarded at end of input instead of being committed — neither a
CodeBlock nor a Table block appears in the output. -/
theorem claim3_counterexample :
    generateModelLines ["```", "line1"] = [] ∧
    generateModelLines ["|a|", "|b|"] = [] :=
  ⟨rfl, rfl⟩

/-! ## Claim C8 -/

/-- Closing-fence step: toggling the code state off commits the buffer as
one CodeBlock. -/
theorem stepLine_closeFence (k : Nat) (s : St) (hs : s.inCode = true) :
    stepLine s (k, "```") =
      { s with inCode := false,
               out := s.out ++ [(s.codeTag, Block.codeBlock s.codeBuf)],
               codeBuf := [] } := by
  simp only [stepLine]
  rw [if_neg (show ¬(pyStrip "```" = "") by decide),
    if_pos (show (litStarts (pyStrip "```") "```" = true) by decide), if_pos hs]

/-- C8 (amended): while the code-block state is active, every nonblank line
— including lines that would otherwise match heading, subheading or
table-row patterns — is appended to the code buffer after stripping its
surrounding whitespace (blank lines are skipped, and the appended text is
the stripped line, not the verbatim one); on the closing fence the
accumulated lines are committed as a single CodeBlock, with no Paragraph
blocks produced for them. -/
theorem claim8_amended (body rest : List String)
    (h : ∀ l ∈ body, litStarts (pyStrip l) "```" = false) :
    (∃ δ, generateModelLines ("```" :: (body ++ "```" :: rest)) =
      Block.codeBlock ((body.map pyStrip).filter (· ≠ "")) :: δ) ∧
    generateModelLines ("```" :: (body ++ ["```"])) =
      [Block.codeBlock ((body.map pyStrip).filter (· ≠ ""))] := by
  have hbuf : ((body.enumFrom 1).map fun p => pyStrip p.2) = body.map pyStrip :=
    enumFrom_map_snd_comp pyStrip 1 body
  have hmain : ∀ tail : List String,
      (("```" :: (body ++ "```" :: tail)).enum.foldl stepLine initSt) =
        ((tail.enumFrom (1 + body.length + 1)).foldl stepLine
          { initSt with
            out := [(0, Block.codeBlock ((body.map pyStrip).filter (· ≠ "")))] }) := by
    intro tail
    have h1 : ("```" :: (body ++ "```" :: tail)).enum =
        (0, "```") :: (body.enumFrom 1 ++ ("```" :: tail).enumFrom (1 + body.length)) := by
      rw [show ("```" :: (body ++ "```" :: tail)).enum =
        (0, "```") :: (body ++ "```" :: tail).enumFrom 1 from rfl, List.enumFrom_append]
    rw [h1, List.foldl_cons,
      show stepLine initSt (0, "```") = { initSt with inCode := true, codeTag := 0 } from rfl,
      List.foldl_append,
      foldl_inCode (body.enumFrom 1) { initSt with inCode := true, codeTag := 0 }
        (fun p hp => h p.2 (mem_of_mem_enumFrom hp)) rfl]
    rw [show ("```" :: tail).enumFrom (1 + body.length) =
      (1 + body.length, "```") :: tail.enumFrom (1 + body.length + 1) from rfl, List.foldl_cons]
    congr 1
    rw [stepLine_closeFence _ _ rfl]
    simp [hbuf, initSt]
  constructor
  · obtain ⟨d1, hd1⟩ := foldl_out_pfx (rest.enumFrom (1 + body.length + 1))
      { initSt with out := [(0, Block.codeBlock ((body.map pyStrip).filter (· ≠ "")))] }
    obtain ⟨d2, hd2⟩ := flushSection_out_pfx
      ((rest.enumFrom (1 + body.length + 1)).foldl stepLine
        { initSt with out := [(0, Block.codeBlock ((body.map pyStrip).filter (· ≠ "")))] })
    refine ⟨(d1 ++ d2).map fun b => b.2, ?_⟩
    unfold generateModelLines generateDocLines
    rw [hmain rest, ← hd2, ← hd1]
    simp
  · unfold generateModelLines generateDocLines
    rw [show ("```" :: (body ++ ["```"]) : List String) = "```" :: (body ++ "```" :: []) from rfl,
      hmain []]
    rw [show (([] : List String).enumFrom (1 + body.length + 1)) = [] from rfl, List.foldl_nil]
    rw [flushSection_noHeading rfl]
    rfl

/-- C8 witness: heading-shaped and table-shaped lines inside a fence land
in the single CodeBlock, uninterpreted, both with and without trailing
input. -/
theorem claim8_witness :
    (∃ δ, generateModelLines ("```" :: (["3. Heading", "|a|b|"] ++ "```" :: ["tail"])) =
      Block.codeBlock (((["3. Heading", "|a|b|"] : List String).map pyStrip).filter (· ≠ "")) :: δ) ∧
    generateModelLines ("```" :: (["3. Heading", "|a|b|"] ++ ["```"])) =
      [Block.codeBlock (((["3. Heading", "|a|b|"] : List String).map pyStrip).filter (· ≠ ""))] :=
  claim8_amended ["3. Heading", "|a|b|"] ["tail"] (by decide)

/-- C8 counterexample: lines are not appended verbatim — a code line with
surrounding whitespace is stripped before being buffered, so the committed
CodeBlock holds `"indented"`, not the original `"  indented  "`. -/
theorem claim8_counterexample :
    generateModelLines ["```", "  indented  ", "```"] = [Block.codeBlock ["indented"]] ∧
    ("indented" : String) ≠ "  indented  " :=
  ⟨rfl, by decide⟩

/-! ## Claim C10 -/

/-- C10 (amended): content lines preceding any heading or subheading line
are not discarded as long as they are not consumed by a table commit or a
code fence: a run of plain lines (matching none of the structural
patterns) at the start of the input is emitted, at the next flush point or
at end of input, as one Paragraph block per line, with no Heading block
emitted for it — unlike the SectionSplitter path, which discards text
before the first header.  (A plain line arriving while table rows are
buffered is instead dropped by the table commit, see the
counterexample.) -/
theorem claim10_amended :
    (∀ pre : List String, (∀ l ∈ pre, isPlainLine l = true) →
      generateModelLines pre = pre.map fun l => Block.paragraph (parseSpans (pyStrip l))) ∧
    (∀ (pre : List String) (h0 : String) (rest : List String) (n t : String),
      (∀ l ∈ pre, isPlainLine l = true) → parseHeading (pyStrip h0) = some (n, t) →
      ∃ δ, generateModelLines (pre ++ h0 :: rest) =
        (pre.map fun l => Block.paragraph (parseSpans (pyStrip l))) ++ δ) := by
  have hstate : ∀ (pre : List String), (∀ l ∈ pre, isPlainLine l = true) →
      pre.enum.foldl stepLine initSt =
        { initSt with content := (pre.enumFrom 0).map fun p => (p.1, pyStrip p.2) } := by
    intro pre hpre
    rw [List.enum_eq_enumFrom,
      foldl_plain (pre.enumFrom 0) initSt (fun p hp => hpre p.2 (mem_of_mem_enumFrom hp)) rfl rfl]
    simp [initSt]
  have hparas : ∀ (pre : List String) (n : Nat),
      (((pre.enumFrom n).map fun p => (p.1, pyStrip p.2)).map
        (fun p => (p.1, Block.paragraph (parseSpans p.2)))).map (fun b => b.2) =
        pre.map fun l => Block.paragraph (parseSpans (pyStrip l)) := by
    intro pre n
    rw [List.map_map, List.map_map]
    exact enumFrom_map_snd_comp (fun l => Block.paragraph (parseSpans (pyStrip l))) n pre
  constructor
  · intro pre hpre
    unfold generateModelLines generateDocLines
    rw [hstate pre hpre, flushSection_noHeading rfl]
    simpa using hparas pre 0
  · intro pre h0 rest n t hpre hh
    obtain ⟨hnum, hne⟩ := parseHeading_num hh
    obtain ⟨c, cs, hcd, hdig⟩ := head_digit_of_takeWhile hne
    obtain ⟨hfence, hpipe⟩ := digit_ne_fence_pipe hdig
    have hb : pyStrip h0 ≠ "" := ne_empty_of_data hcd
    have hf : litStarts (pyStrip h0) "```" = false := litStarts_fence_false hcd hfence
    have htl : isTableLine (pyStrip h0) = false := isTableLine_false_of_head hcd hpipe
    have henum : (pre ++ h0 :: rest).enum =
        pre.enumFrom 0 ++ (pre.length, h0) :: rest.enumFrom (pre.length + 1) := by
      rw [List.enum_eq_enumFrom, List.enumFrom_append, Nat.zero_add, List.enumFrom_cons]
    have hs1 := hstate pre hpre
    rw [List.enum_eq_enumFrom] at hs1
    have hstep : stepLine { initSt with content := (pre.enumFrom 0).map fun p => (p.1, pyStrip p.2) }
        (pre.length, h0) =
        { flushSection { initSt with content := (pre.enumFrom 0).map fun p => (p.1, pyStrip p.2) } with
          cur := (pre.length, n ++ ". " ++ t),
          known := (flushSection { initSt with
            content := (pre.enumFrom 0).map fun p => (p.1, pyStrip p.2) }).known ++ [n] } := by
      unfold stepLine
      rw [if_neg hb, if_neg (by simp [hf]), if_neg (by simp [initSt]), if_neg (by simp [htl]),
        if_neg (by simp [initSt]), hh]
    obtain ⟨d1, hd1⟩ := foldl_out_pfx (rest.enumFrom (pre.length + 1))
      (stepLine { initSt with content := (pre.enumFrom 0).map fun p => (p.1, pyStrip p.2) }
        (pre.length, h0))
    obtain ⟨d2, hd2⟩ := flushSection_out_pfx
      ((rest.enumFrom (pre.length + 1)).foldl stepLine
        (stepLine { initSt with content := (pre.enumFrom 0).map fun p => (p.1, pyStrip p.2) }
          (pre.length, h0)))
    refine ⟨(d1 ++ d2).map fun b => b.2, ?_⟩
    unfold generateModelLines generateDocLines
    rw [henum, List.foldl_append, hs1, List.foldl_cons, ← hd2, ← hd1, hstep,
      flushSection_noHeading rfl]
    simp only [List.map_append]
    rw [hparas pre 0]
    simp [initSt]

/-- C10 witness: a plain line before the first heading is emitted as a
Paragraph ahead of everything else, and with no following heading the
pre-heading content is flushed at end of input. -/
theorem claim10_witness :
    generateModelLines ["solo content line"] =
      (["solo content line"] : List String).map (fun l => Block.paragraph (parseSpans (pyStrip l))) ∧
    ∃ δ, generateModelLines (["intro text"] ++ "1. Title" :: ["body"]) =
      ((["intro text"] : List String).map fun l => Block.paragraph (parseSpans (pyStrip l))) ++ δ :=
  ⟨claim10_amended.1 ["solo content line"] (by decide),
   claim10_amended.2 ["intro text"] "1. Title" ["body"] "1" "Title" (by decide) (by decide)⟩

/-- C10 counterexample: the plain content line that terminates a buffered
table is consumed by the table commit — it appears in no Paragraph block,
so pre-heading content is not always preserved. -/
theorem claim10_counterexample :
    generateModelLines ["|a|", "|s|", "dropped content line"] = [Block.table ["a"] []] := rfl

/-! ## Claim C6 -/

/-- `headTitles` distributes over append. -/
theorem headTitles_append (a b : List (Nat × Block)) :
    headTitles (a ++ b) = headTitles a ++ headTitles b :=
  List.filterMap_append ..

/-- Paragraph emissions contribute no heading texts. -/
theorem headTitles_paras (l : List (Nat × String)) :
    headTitles (l.map fun p => (p.1, Block.paragraph (parseSpans p.2))) = [] := by
  induction l with
  | nil => rfl
  | cons p ps ih => simp [headTitles, List.filterMap_cons, ih]

/-- Two digit strings followed by a dot and equal-shaped tails agree. -/
theorem digits_dot_inj {a b u v : List Char}
    (ha : ∀ c ∈ a, c.isDigit = true) (hb : ∀ c ∈ b, c.isDigit = true)
    (h : a ++ '.' :: u = b ++ '.' :: v) : a = b := by
  induction a generalizing b with
  | nil =>
    cases b with
    | nil => rfl
    | cons c bs =>
      obtain ⟨h1, -⟩ := List.cons.inj h
      exact absurd (h1 ▸ hb c (List.mem_cons_self c bs)) (by decide)
  | cons c as ih =>
    cases b with
    | nil =>
      obtain ⟨h1, -⟩ := List.cons.inj h
      exact absurd (h1 ▸ ha c (List.mem_cons_self c as)) (by decide)
    | cons c2 bs =>
      obtain ⟨h1, h2⟩ := List.cons.inj h
      rw [h1, ih (fun x hx => ha x (List.mem_cons_of_mem c hx))
        (fun x hx => hb x (List.mem_cons_of_mem c2 hx)) h2]

/-- A heading text `g ++ ". " ++ t` built from a digit group `g` equals a
placeholder title `autoTitle nm` with digit `nm` only when `g = nm`. -/
theorem headingText_eq_autoTitle {g t nm : String}
    (hg : ∀ c ∈ g.data, c.isDigit = true)
    (hnm : ∀ c ∈ nm.data, c.isDigit = true)
    (h : g ++ ". " ++ t = autoTitle nm) : g = nm := by
  have hd : g.data ++ '.' :: ' ' :: t.data = nm.data ++ '.' :: ' ' :: "(Auto) Section".data := by
    have := congrArg String.data h
    simpa [autoTitle] using this
  exact String.ext (digits_dot_inj hg hnm hd)

/-- A nonempty placeholder title is never the empty string. -/
theorem autoTitle_ne_empty (nm : String) : autoTitle nm ≠ "" := by
  intro h
  have hd : nm.data ++ ". (Auto) Section".data = ([] : List Char) := congrArg String.data h
  exact absurd hd (by simp)

/-- `flush_section` preserves the heading-uniqueness invariant. -/
theorem flushSection_InvH {s : St} (h : InvH s) : InvH (flushSection s) := by
  obtain ⟨h1, h2, h3, h4⟩ := h
  unfold flushSection
  split
  · next hcond =>
    obtain ⟨hne, hnotseen⟩ := hcond
    have hseen : s.cur.2 ∉ s.seen := by simpa using hnotseen
    refine ⟨?_, ?_, ?_, ?_⟩
    · rw [headTitles_append, headTitles_append, headTitles_paras, List.append_nil]
      rw [List.nodup_append]
      refine ⟨h1, List.nodup_singleton _, ?_⟩
      intro a ha hb
      rw [show headTitles [(s.cur.1, Block.heading s.cur.2)] = [s.cur.2] from rfl,
        List.mem_singleton] at hb
      exact hseen (hb ▸ h2 a ha)
    · intro x hx
      rw [headTitles_append, headTitles_append, headTitles_paras, List.append_nil,
        show headTitles [(s.cur.1, Block.heading s.cur.2)] = [s.cur.2] from rfl] at hx
      rcases List.mem_append.mp hx with hx | hx
      · exact List.mem_append_left _ (h2 x hx)
      · exact List.mem_append_right _ hx
    · intro nm hd hdig hmem
      rcases List.mem_append.mp hmem with hmem | hmem
      · exact h3 nm hd hdig hmem
      · rw [List.mem_singleton] at hmem
        exact h4 nm hd hdig hmem.symm
    · intro nm hd hdig hcur
      exact h4 nm hd hdig hcur
  · refine ⟨?_, ?_, h3, h4⟩
    · rw [headTitles_append, headTitles_paras, List.append_nil]
      exact h1
    · intro x hx
      rw [headTitles_append, headTitles_paras, List.append_nil] at hx
      exact h2 x hx

/-- No heading text is contributed by a single codeBlock, subheading or
table emission. -/
theorem headTitles_single_table (k : Nat) (ls : List String) :
    headTitles [(k, mkTable ls)] = [] := by
  cases ls <;> rfl

/-- One loop iteration preserves the heading-uniqueness invariant. -/
theorem stepLine_InvH {s : St} (h : InvH s) (il : Nat × String) : InvH (stepLine s il) := by
  unfold stepLine
  split
  · exact h
  · split
    · split
      · -- closing fence: one CodeBlock is appended
        obtain ⟨h1, h2, h3, h4⟩ := h
        refine ⟨?_, ?_, h3, h4⟩
        · rw [headTitles_append, show headTitles [(s.codeTag, Block.codeBlock s.codeBuf)] = []
            from rfl, List.append_nil]
          exact h1
        · intro x hx
          rw [headTitles_append, show headTitles [(s.codeTag, Block.codeBlock s.codeBuf)] = []
            from rfl, List.append_nil] at hx
          exact h2 x hx
      · exact h
    · split
      · exact h
      · split
        · exact h
        · split
          · -- table commit
            obtain ⟨h1, h2, h3, h4⟩ := flushSection_InvH h
            refine ⟨?_, ?_, h3, h4⟩
            · rw [headTitles_append, headTitles_single_table, List.append_nil]
              exact h1
            · intro x hx
              rw [headTitles_append, headTitles_single_table, List.append_nil] at hx
              exact h2 x hx
          · split
            · -- heading line
              next n t heq =>
              obtain ⟨h1, h2, h3, h4⟩ := flushSection_InvH h
              obtain ⟨hnum, -⟩ := parseHeading_num heq
              refine ⟨h1, h2, ?_, ?_⟩
              · intro nm hd hdig hmem
                exact List.mem_append_left _ (h3 nm hd hdig hmem)
              · intro nm hd hdig hcur
                have hgd : ∀ c ∈ n.data, c.isDigit = true := by
                  intro c hc
                  rw [hnum] at hc
                  exact List.mem_takeWhile_imp hc
                have heq2 : n = nm := headingText_eq_autoTitle hgd hdig hcur
                rw [← heq2]
                exact List.mem_append_right _ (List.mem_singleton.mpr rfl)
            · split
              · next n m t heq =>
                -- subheading
                split
                · -- main number already known
                  obtain ⟨h1, h2, h3, h4⟩ := flushSection_InvH h
                  refine ⟨?_, ?_, h3, h4⟩
                  · rw [headTitles_append, show headTitles
                      [(il.1, Block.subheading (n ++ "." ++ m ++ " " ++ t))] = [] from rfl,
                      List.append_nil]
                    exact h1
                  · intro x hx
                    rw [headTitles_append, show headTitles
                      [(il.1, Block.subheading (n ++ "." ++ m ++ " " ++ t))] = [] from rfl,
                      List.append_nil] at hx
                    exact h2 x hx
                · split
                  · -- placeholder title already seen
                    obtain ⟨h1, h2, h3, h4⟩ := flushSection_InvH h
                    refine ⟨?_, ?_, h3, h4⟩
                    · rw [headTitles_append, show headTitles
                        [(il.1, Block.subheading (n ++ "." ++ m ++ " " ++ t))] = [] from rfl,
                        List.append_nil]
                      exact h1
                    · intro x hx
                      rw [headTitles_append, show headTitles
                        [(il.1, Block.subheading (n ++ "." ++ m ++ " " ++ t))] = [] from rfl,
                        List.append_nil] at hx
                      exact h2 x hx
                  · -- placeholder heading is emitted
                    next hseen =>
                    obtain ⟨h1, h2, h3, h4⟩ := flushSection_InvH h
                    have hnotseen : autoTitle n ∉ (flushSection s).seen := by
                      intro hmem
                      exact hseen (by simpa using hmem)
                    obtain ⟨hnum, -⟩ := parseSub_num heq
                    have hgd : ∀ c ∈ n.data, c.isDigit = true := by
                      intro c hc
                      rw [hnum] at hc
                      exact List.mem_takeWhile_imp hc
                    refine ⟨?_, ?_, ?_, ?_⟩
                    · rw [headTitles_append, headTitles_append,
                        show headTitles [(il.1, Block.heading (autoTitle n))] = [autoTitle n]
                          from rfl,
                        show headTitles [(il.1, Block.subheading (n ++ "." ++ m ++ " " ++ t))] =
                          [] from rfl, List.append_nil]
                      rw [List.nodup_append]
                      refine ⟨h1, List.nodup_singleton _, ?_⟩
                      intro a ha hb
                      rw [List.mem_singleton] at hb
                      exact hnotseen (hb ▸ h2 a ha)
                    · intro x hx
                      rw [headTitles_append, headTitles_append,
                        show headTitles [(il.1, Block.heading (autoTitle n))] = [autoTitle n]
                          from rfl,
                        show headTitles [(il.1, Block.subheading (n ++ "." ++ m ++ " " ++ t))] =
                          [] from rfl, List.append_nil] at hx
                      rcases List.mem_append.mp hx with hx | hx
                      · exact List.mem_append_left _ (h2 x hx)
                      · exact List.mem_append_right _ hx
                    · intro nm hd hdig hmem
                      rcases List.mem_append.mp hmem with hmem | hmem
                      · exact List.mem_append_left _ (h3 nm hd hdig hmem)
                      · rw [List.mem_singleton] at hmem
                        have heq2 : n = nm := by
                          have hdd := congrArg String.data hmem
                          simp only [autoTitle] at hdd
                          have hdd2 : nm.data ++ '.' :: ' ' :: "(Auto) Section".data =
                              n.data ++ '.' :: ' ' :: "(Auto) Section".data := by
                            simpa using hdd
                          exact (String.ext (digits_dot_inj hdig hgd hdd2)).symm
                        rw [← heq2]
                        exact List.mem_append_right _ (List.mem_singleton.mpr rfl)
                    · intro nm hd hdig hcur
                      exact List.mem_append_left _ (h4 nm hd hdig hcur)
              · -- plain content line
                exact h

/-- The heading-uniqueness invariant holds initially. -/
theorem InvH_init : InvH initSt := by
  refine ⟨List.nodup_nil, by simp [headTitles, initSt], by simp [initSt], ?_⟩
  intro nm hd hdig hcur
  exact absurd hcur.symm (autoTitle_ne_empty nm)

/-- The heading-uniqueness invariant holds after any fold of the loop. -/
theorem foldl_InvH (ils : List (Nat × String)) :
    ∀ s : St, InvH s → InvH (ils.foldl stepLine s) := by
  induction ils with
  | nil => intro s h; exact h
  | cons p ps ih =>
    intro s h
    exact ih (stepLine s p) (stepLine_InvH h p)

/-- Counting a heading block in the untagged model is counting its text
among the emitted heading texts. -/
theorem count_heading_eq (x : String) (out : List (Nat × Block)) :
    List.count (Block.heading x) (out.map fun b => b.2) = List.count x (headTitles out) := by
  induction out with
  | nil => rfl
  | cons p ps ih =>
    cases hb : p.2 <;>
      simp [headTitles, List.filterMap_cons, List.count_cons, ih, hb, Block.heading.injEq]

/-- The step taken on a subheading line whose main number is unknown and
whose placeholder title is unseen: flush, then emit the placeholder
Heading and the Subheading, recording both. -/
theorem stepLine_subAuto {s : St} {k : Nat} {x N M T : String}
    (hsub : parseSub (pyStrip x) = some (N, M, T))
    (hcode : s.inCode = false) (htab : s.inTable = false)
    (hknown2 : (flushSection s).known.contains N = false)
    (hseen2 : (flushSection s).seen.contains (autoTitle N) = false) :
    stepLine s (k, x) =
      { flushSection s with
        out := (flushSection s).out ++ [(k, Block.heading (autoTitle N))] ++
          [(k, Block.subheading (N ++ "." ++ M ++ " " ++ T))],
        seen := (flushSection s).seen ++ [autoTitle N],
        known := (flushSection s).known ++ [N] } := by
  obtain ⟨hnum, hne⟩ := parseSub_num hsub
  obtain ⟨c, cs, hcd, hdig⟩ := head_digit_of_takeWhile hne
  obtain ⟨hfc, hpc⟩ := digit_ne_fence_pipe hdig
  have hb : pyStrip x ≠ "" := ne_empty_of_data hcd
  have hf : litStarts (pyStrip x) "```" = false := litStarts_fence_false hcd hfc
  have htl : isTableLine (pyStrip x) = false := isTableLine_false_of_head hcd hpc
  have hhd : parseHeading (pyStrip x) = none := parseHeading_none_of_parseSub hsub
  unfold stepLine
  rw [if_neg hb, if_neg (by simp [hf]), if_neg (by simp [hcode]), if_neg (by simp [htl]),
    if_neg (by simp [htab]), hhd, hsub]
  dsimp only
  rw [if_neg (by simpa using hknown2), if_neg (by simpa using hseen2)]

/-- C6: if, at a point where the machine is outside the code-block and
table states, a subheading line with main number `N` is processed while `N`
is not yet known, then the placeholder Heading `"N. (Auto) Section"` occurs
exactly once in the whole produced document, immediately before that
Subheading, and `N` is recorded as known. -/
theorem claim6_auto_heading (pre : List String) (x : String) (post : List String)
    (N M T : String)
    (hsub : parseSub (pyStrip x) = some (N, M, T))
    (hcode : (pre.enum.foldl stepLine initSt).inCode = false)
    (htab : (pre.enum.foldl stepLine initSt).inTable = false)
    (hknown : N ∉ (pre.enum.foldl stepLine initSt).known) :
    List.count (Block.heading (autoTitle N)) (generateModelLines (pre ++ x :: post)) = 1 ∧
    (∃ A B, generateModelLines (pre ++ x :: post) =
      A ++ Block.heading (autoTitle N) :: Block.subheading (N ++ "." ++ M ++ " " ++ T) :: B) ∧
    N ∈ ((pre ++ x :: post).enum.foldl stepLine initSt).known := by
  have hInv1 : InvH (pre.enum.foldl stepLine initSt) := foldl_InvH _ _ InvH_init
  obtain ⟨hnum, hne⟩ := parseSub_num hsub
  obtain ⟨c, cs, hcd, hdig⟩ := head_digit_of_takeWhile hne
  obtain ⟨hfc, hpc⟩ := digit_ne_fence_pipe hdig
  have hb : pyStrip x ≠ "" := ne_empty_of_data hcd
  have hf : litStarts (pyStrip x) "```" = false := litStarts_fence_false hcd hfc
  have htl : isTableLine (pyStrip x) = false := isTableLine_false_of_head hcd hpc
  have hhd : parseHeading (pyStrip x) = none := parseHeading_none_of_parseSub hsub
  have hgd : ∀ ch ∈ N.data, ch.isDigit = true := fun ch hc =>
    List.mem_takeWhile_imp (hnum ▸ hc)
  have hNne : N.data ≠ [] := by
    rw [hnum]
    intro h0
    rw [h0] at hne
    simp at hne
  have hknown2 : (flushSection (pre.enum.foldl stepLine initSt)).known.contains N = false := by
    rw [flushSection_known]
    simpa using hknown
  have hseen2 : (flushSection (pre.enum.foldl stepLine initSt)).seen.contains (autoTitle N) =
      false := by
    obtain ⟨-, -, h3, -⟩ := flushSection_InvH hInv1
    by_contra hx
    rw [Bool.not_eq_false] at hx
    have hmem : autoTitle N ∈ (flushSection (pre.enum.foldl stepLine initSt)).seen := by
      simpa using hx
    have hk := h3 N hNne hgd hmem
    rw [flushSection_known] at hk
    exact hknown hk
  have hstep := stepLine_subAuto (s := pre.enum.foldl stepLine initSt) (k := pre.length)
    hsub hcode htab hknown2 hseen2
  have henum : (pre ++ x :: post).enum =
      pre.enum ++ (pre.length, x) :: post.enumFrom (pre.length + 1) := by
    rw [show (pre ++ x :: post).enum = List.enumFrom 0 (pre ++ x :: post)
      from List.enum_eq_enumFrom, List.enumFrom_append, Nat.zero_add, List.enumFrom_cons,
      ← List.enum_eq_enumFrom]
  have hfold : (pre ++ x :: post).enum.foldl stepLine initSt =
      (post.enumFrom (pre.length + 1)).foldl stepLine
        (stepLine (pre.enum.foldl stepLine initSt) (pre.length, x)) := by
    rw [henum, List.foldl_append, List.foldl_cons]
  obtain ⟨d1, hd1⟩ := foldl_out_pfx (post.enumFrom (pre.length + 1))
    (stepLine (pre.enum.foldl stepLine initSt) (pre.length, x))
  obtain ⟨d2, hd2⟩ := flushSection_out_pfx
    ((post.enumFrom (pre.length + 1)).foldl stepLine
      (stepLine (pre.enum.foldl stepLine initSt) (pre.length, x)))
  have hout : (flushSection ((pre ++ x :: post).enum.foldl stepLine initSt)).out =
      (flushSection (pre.enum.foldl stepLine initSt)).out ++
        ([(pre.length, Block.heading (autoTitle N)),
          (pre.length, Block.subheading (N ++ "." ++ M ++ " " ++ T))] ++ (d1 ++ d2)) := by
    rw [hfold, ← hd2, ← hd1, hstep]
    simp
  have hInvF : InvH (flushSection ((pre ++ x :: post).enum.foldl stepLine initSt)) :=
    flushSection_InvH (foldl_InvH _ _ InvH_init)
  have hmemT : autoTitle N ∈
      headTitles (flushSection ((pre ++ x :: post).enum.foldl stepLine initSt)).out := by
    rw [hout, headTitles_append, headTitles_append]
    exact List.mem_append_right _ (List.mem_append_left _ (by
      rw [show headTitles [(pre.length, Block.heading (autoTitle N)),
        (pre.length, Block.subheading (N ++ "." ++ M ++ " " ++ T))] = [autoTitle N] from rfl]
      exact List.mem_singleton.mpr rfl))
  refine ⟨?_, ?_, ?_⟩
  · rw [show generateModelLines (pre ++ x :: post) =
      ((flushSection ((pre ++ x :: post).enum.foldl stepLine initSt)).out.map fun b => b.2)
      from rfl, count_heading_eq]
    have hle := List.nodup_iff_count_le_one.mp hInvF.1 (autoTitle N)
    have hge := List.count_pos_iff.mpr hmemT
    omega
  · refine ⟨(flushSection (pre.enum.foldl stepLine initSt)).out.map fun b => b.2,
      (d1 ++ d2).map fun b => b.2, ?_⟩
    rw [show generateModelLines (pre ++ x :: post) =
      ((flushSection ((pre ++ x :: post).enum.foldl stepLine initSt)).out.map fun b => b.2)
      from rfl, hout]
    simp
  · rw [hfold]
    refine foldl_known_mono _ _ ?_
    rw [hstep]
    exact List.mem_append_right _ (List.mem_singleton.mpr rfl)

/-- C6 witness: an orphan subheading `3.1 Overview` (no prior heading 3)
followed by another `3.x` subsection yields exactly one placeholder
heading, placed immediately before the first subheading. -/
theorem claim6_witness :
    List.count (Block.heading (autoTitle "3")) (generateModelLines ([] ++ "3.1 Overview" :: ["3.2 More"])) = 1 ∧
    (∃ A B, generateModelLines ([] ++ "3.1 Overview" :: ["3.2 More"]) =
      A ++ Block.heading (autoTitle "3") :: Block.subheading ("3" ++ "." ++ "1" ++ " " ++ "Overview") :: B) ∧
    "3" ∈ ((([] : List String) ++ "3.1 Overview" :: ["3.2 More"]).enum.foldl stepLine initSt).known :=
  claim6_auto_heading [] "3.1 Overview" ["3.2 More"] "3" "1" "Overview"
    (by decide) (by decide) (by decide) (by decide)

/-! ## Claim C5 -/

/-- The ordering invariant weakens as the line bound grows. -/
theorem InvO.mono {i j : Nat} {s : St} (hij : i ≤ j) (h : InvO i s) : InvO j s where
  outSorted := h.outSorted
  contentSorted := h.contentSorted
  tbSorted := h.tbSorted
  outContent := h.outContent
  outTb := h.outTb
  contentTb := h.contentTb
  liveCur := h.liveCur
  outBelow := fun x hx => le_trans (h.outBelow x hx) hij
  contentBelow := fun x hx => le_trans (h.contentBelow x hx) hij
  tbBelow := fun x hx => le_trans (h.tbBelow x hx) hij
  curBelow := le_trans h.curBelow hij
  tbEmpty := h.tbEmpty
  tbFull := h.tbFull
  code := h.code

/-- The ordering invariant holds in the initial state. -/
theorem InvO_init : InvO 0 initSt where
  outSorted := List.Pairwise.nil
  contentSorted := List.Pairwise.nil
  tbSorted := List.Pairwise.nil
  outContent := by simp [initSt]
  outTb := by simp [initSt]
  contentTb := by simp [initSt]
  liveCur := fun h _ => absurd rfl h
  outBelow := by simp [initSt]
  contentBelow := by simp [initSt]
  tbBelow := by simp [initSt]
  curBelow := le_refl 0
  tbEmpty := fun _ => rfl
  tbFull := fun h => by simp [initSt] at h
  code := rfl

/-- What `flush_section` guarantees under the ordering invariant: the
flushed document is sorted, still dominated by the table buffer, still
bounded, and the pending heading is dead (already emitted or recorded). -/
theorem flushSection_InvO {i : Nat} {s : St} (h : InvO i s) :
    (flushSection s).out.Pairwise (fun x y => x.1 ≤ y.1) ∧
    (∀ x ∈ (flushSection s).out, ∀ y ∈ s.tableBuf, x.1 ≤ y.1) ∧
    (∀ x ∈ (flushSection s).out, x.1 ≤ i) ∧
    ((flushSection s).cur.2 ≠ "" → (flushSection s).seen.contains (flushSection s).cur.2 = false →
      False) := by
  unfold flushSection
  split
  · next hcond =>
    obtain ⟨hlive1, hlive2⟩ := hcond
    obtain ⟨ho1, ho2, ho3⟩ := h.liveCur hlive1 hlive2
    refine ⟨?_, ?_, ?_, ?_⟩
    · refine List.pairwise_append.mpr ⟨List.pairwise_append.mpr
        ⟨h.outSorted, List.pairwise_singleton _ _, ?_⟩, ?_, ?_⟩
      · intro a ha b hb
        rw [List.mem_singleton] at hb
        exact hb ▸ ho1 a ha
      · exact List.pairwise_map.mpr h.contentSorted
      · intro a ha y hy
        obtain ⟨p, hp, rfl⟩ := List.mem_map.mp hy
        rcases List.mem_append.mp ha with ha | ha
        · exact h.outContent a ha p hp
        · rw [List.mem_singleton] at ha
          exact ha ▸ ho2 p hp
    · intro a ha y hy
      rcases List.mem_append.mp ha with ha | ha
      · rcases List.mem_append.mp ha with ha | ha
        · exact h.outTb a ha y hy
        · rw [List.mem_singleton] at ha
          exact ha ▸ ho3 y hy
      · obtain ⟨p, hp, rfl⟩ := List.mem_map.mp ha
        exact h.contentTb p hp y hy
    · intro a ha
      rcases List.mem_append.mp ha with ha | ha
      · rcases List.mem_append.mp ha with ha | ha
        · exact h.outBelow a ha
        · rw [List.mem_singleton] at ha
          exact ha ▸ h.curBelow
      · obtain ⟨p, hp, rfl⟩ := List.mem_map.mp ha
        exact h.contentBelow p hp
    · intro _ hcontains
      simp at hcontains
  · next hncond =>
    refine ⟨?_, ?_, ?_, ?_⟩
    · refine List.pairwise_append.mpr ⟨h.outSorted, List.pairwise_map.mpr h.contentSorted, ?_⟩
      intro a ha y hy
      obtain ⟨p, hp, rfl⟩ := List.mem_map.mp hy
      exact h.outContent a ha p hp
    · intro a ha y hy
      rcases List.mem_append.mp ha with ha | ha
      · exact h.outTb a ha y hy
      · obtain ⟨p, hp, rfl⟩ := List.mem_map.mp ha
        exact h.contentTb p hp y hy
    · intro a ha
      rcases List.mem_append.mp ha with ha | ha
      · exact h.outBelow a ha
      · obtain ⟨p, hp, rfl⟩ := List.mem_map.mp ha
        exact h.contentBelow p hp
    · intro h1 h2
      exact hncond ⟨h1, h2⟩

/-- Appending an element with a dominating tag preserves sortedness. -/
theorem pairwise_snoc {α : Type} {xs : List (Nat × α)} {y : Nat × α}
    (hx : xs.Pairwise fun a b => a.1 ≤ b.1) (hy : ∀ x ∈ xs, x.1 ≤ y.1) :
    (xs ++ [y]).Pairwise fun a b => a.1 ≤ b.1 :=
  List.pairwise_append.mpr ⟨hx, List.pairwise_singleton _ _, fun a ha b hb => by
    rw [List.mem_singleton] at hb
    exact hb ▸ hy a ha⟩

/-- Not containing an element in an appended list means not containing it
in the first part. -/
theorem contains_append_false {a b : List String} {x : String}
    (h : (a ++ b).contains x = false) : a.contains x = false := by
  simp at h ⊢
  exact h.1

/-- One fence-free loop iteration preserves the ordering invariant,
advancing the line bound. -/
theorem stepLine_InvO {i : Nat} {s : St} {l : String}
    (hfence : litStarts (pyStrip l) "```" = false)
    (h : InvO i s) : InvO (i + 1) (stepLine s (i, l)) := by
  have hflush := flushSection_InvO h
  unfold stepLine
  split
  · exact h.mono (Nat.le_succ i)
  · split
    · next hcond => exact absurd hcond (by simp [hfence])
    · split
      · next hcond => exact absurd hcond (by simp [h.code])
      · split
        · -- a table row is buffered
          refine ⟨h.outSorted, h.contentSorted,
            pairwise_snoc h.tbSorted (fun x hx => h.tbBelow x hx), h.outContent, ?_, ?_, ?_,
            ?_, ?_, ?_, le_trans h.curBelow (Nat.le_succ i), ?_, ?_, h.code⟩
          · intro x hx y hy
            rcases List.mem_append.mp hy with hy | hy
            · exact h.outTb x hx y hy
            · rw [List.mem_singleton] at hy
              exact hy ▸ h.outBelow x hx
          · intro x hx y hy
            rcases List.mem_append.mp hy with hy | hy
            · exact h.contentTb x hx y hy
            · rw [List.mem_singleton] at hy
              exact hy ▸ h.contentBelow x hx
          · intro h1 h2
            obtain ⟨ho1, ho2, ho3⟩ := h.liveCur h1 h2
            refine ⟨ho1, ho2, ?_⟩
            intro y hy
            rcases List.mem_append.mp hy with hy | hy
            · exact ho3 y hy
            · rw [List.mem_singleton] at hy
              subst hy
              exact h.curBelow
          · exact fun x hx => le_trans (h.outBelow x hx) (Nat.le_succ i)
          · exact fun x hx => le_trans (h.contentBelow x hx) (Nat.le_succ i)
          · intro x hx
            rcases List.mem_append.mp hx with hx | hx
            · exact le_trans (h.tbBelow x hx) (Nat.le_succ i)
            · rw [List.mem_singleton] at hx
              exact hx ▸ Nat.le_succ i
          · intro hx
            exact absurd hx (by simp)
          · intro _
            simp
        · split
          · -- the buffered table is committed
            next htab =>
            have htabT : s.inTable = true := by simpa using htab
            have htbne := h.tbFull htabT
            have htag : ∀ x ∈ (flushSection s).out, x.1 ≤ tableTag s.tableBuf := by
              rcases hbuf : s.tableBuf with _ | ⟨b, bs⟩
              · exact absurd hbuf htbne
              · intro x hx
                have := hflush.2.1 x hx b (by rw [hbuf]; exact List.mem_cons_self b bs)
                simpa [tableTag, hbuf] using this
            have htagB : tableTag s.tableBuf ≤ i := by
              rcases hbuf : s.tableBuf with _ | ⟨b, bs⟩
              · exact absurd hbuf htbne
              · have := h.tbBelow b (by rw [hbuf]; exact List.mem_cons_self b bs)
                simpa [tableTag, hbuf] using this
            refine ⟨pairwise_snoc hflush.1 htag, ?_, ?_, ?_, ?_, ?_, ?_, ?_, ?_, ?_, ?_, ?_, ?_, ?_⟩
            · show (flushSection s).content.Pairwise _
              rw [flushSection_content]
              exact List.Pairwise.nil
            · exact List.Pairwise.nil
            · intro x hx y hy
              show x.1 ≤ y.1
              rw [show ({ flushSection s with
                out := (flushSection s).out ++
                  [(tableTag s.tableBuf, mkTable (s.tableBuf.map fun b => b.2))],
                tableBuf := [], inTable := false } : St).content = (flushSection s).content
                from rfl, flushSection_content] at hy
              exact absurd hy (List.not_mem_nil y)
            · intro x hx y hy
              exact absurd hy (List.not_mem_nil y)
            · intro x hx y hy
              exact absurd hy (List.not_mem_nil y)
            · intro h1 h2
              exact absurd (hflush.2.2.2 h1 h2) not_false
            · intro x hx
              rcases List.mem_append.mp hx with hx | hx
              · exact le_trans (hflush.2.2.1 x hx) (Nat.le_succ i)
              · rw [List.mem_singleton] at hx
                exact hx ▸ le_trans htagB (Nat.le_succ i)
            · intro x hx
              rw [show ({ flushSection s with
                out := (flushSection s).out ++
                  [(tableTag s.tableBuf, mkTable (s.tableBuf.map fun b => b.2))],
                tableBuf := [], inTable := false } : St).content = (flushSection s).content
                from rfl, flushSection_content] at hx
              exact absurd hx (List.not_mem_nil x)
            · intro x hx
              exact absurd hx (List.not_mem_nil x)
            · show (flushSection s).cur.1 ≤ i + 1
              rw [flushSection_cur]
              exact le_trans h.curBelow (Nat.le_succ i)
            · intro _
              rfl
            · intro hx
              exact absurd hx (by simp)
            · show (flushSection s).inCode = false
              rw [flushSection_inCode]
              exact h.code
          · -- neither fence, table row, nor mid-table
            next hnotab =>
            have hnotabF : s.inTable = false := by simpa using hnotab
            have htbnil : s.tableBuf = [] := h.tbEmpty hnotabF
            split
            · -- heading line
              refine ⟨hflush.1, ?_, ?_, ?_, ?_, ?_, ?_, ?_, ?_, ?_, Nat.le_succ i, ?_, ?_, ?_⟩
              · show (flushSection s).content.Pairwise _
                rw [flushSection_content]
                exact List.Pairwise.nil
              · show (flushSection s).tableBuf.Pairwise _
                rw [flushSection_tableBuf, htbnil]
                exact List.Pairwise.nil
              · intro x hx y hy
                show x.1 ≤ y.1
                rw [show ({ flushSection s with
                  cur := (i, _ ++ ". " ++ _),
                  known := (flushSection s).known ++ [_] } : St).content =
                  (flushSection s).content from rfl, flushSection_content] at hy
                exact absurd hy (List.not_mem_nil y)
              · intro x hx y hy
                show x.1 ≤ y.1
                rw [show ({ flushSection s with
                  cur := (i, _ ++ ". " ++ _),
                  known := (flushSection s).known ++ [_] } : St).tableBuf =
                  (flushSection s).tableBuf from rfl, flushSection_tableBuf, htbnil] at hy
                exact absurd hy (List.not_mem_nil y)
              · intro x hx y hy
                show x.1 ≤ y.1
                rw [show ({ flushSection s with
                  cur := (i, _ ++ ". " ++ _),
                  known := (flushSection s).known ++ [_] } : St).tableBuf =
                  (flushSection s).tableBuf from rfl, flushSection_tableBuf, htbnil] at hy
                exact absurd hy (List.not_mem_nil y)
              · intro h1 h2
                refine ⟨fun x hx => hflush.2.2.1 x hx, ?_, ?_⟩
                · intro y hy
                  rw [show ({ flushSection s with
                    cur := (i, _ ++ ". " ++ _),
                    known := (flushSection s).known ++ [_] } : St).content =
                    (flushSection s).content from rfl, flushSection_content] at hy
                  exact absurd hy (List.not_mem_nil y)
                · intro y hy
                  rw [show ({ flushSection s with
                    cur := (i, _ ++ ". " ++ _),
                    known := (flushSection s).known ++ [_] } : St).tableBuf =
                    (flushSection s).tableBuf from rfl, flushSection_tableBuf, htbnil] at hy
                  exact absurd hy (List.not_mem_nil y)
              · exact fun x hx => le_trans (hflush.2.2.1 x hx) (Nat.le_succ i)
              · intro x hx
                rw [show ({ flushSection s with
                  cur := (i, _ ++ ". " ++ _),
                  known := (flushSection s).known ++ [_] } : St).content =
                  (flushSection s).content from rfl, flushSection_content] at hx
                exact absurd hx (List.not_mem_nil x)
              · intro x hx
                rw [show ({ flushSection s with
                  cur := (i, _ ++ ". " ++ _),
                  known := (flushSection s).known ++ [_] } : St).tableBuf =
                  (flushSection s).tableBuf from rfl, flushSection_tableBuf, htbnil] at hx
                exact absurd hx (List.not_mem_nil x)
              · intro _
                show (flushSection s).tableBuf = []
                rw [flushSection_tableBuf]
                exact htbnil
              · intro hx
                show (flushSection s).tableBuf ≠ []
                exact absurd hx (by
                  show ¬ (flushSection s).inTable = true
                  rw [flushSection_inTable, hnotabF]
                  simp)
              · show (flushSection s).inCode = false
                rw [flushSection_inCode]
                exact h.code
            · -- subheading or plain content
              split
              · next n m t heq =>
                have hnotlive : ∀ (s2 : St), s2.cur = (flushSection s).cur →
                    (∀ x, (flushSection s).seen.contains x = false →
                      s2.seen.contains x = false → True) → True := fun _ _ _ => trivial
                split
                · -- main number known: emit only the Subheading
                  refine ⟨pairwise_snoc hflush.1
                      (fun x hx => hflush.2.2.1 x hx), ?_, ?_, ?_, ?_, ?_, ?_, ?_, ?_, ?_, ?_,
                      ?_, ?_, ?_⟩
                  · show (flushSection s).content.Pairwise _
                    rw [flushSection_content]
                    exact List.Pairwise.nil
                  · show (flushSection s).tableBuf.Pairwise _
                    rw [flushSection_tableBuf, htbnil]
                    exact List.Pairwise.nil
                  · intro x hx y hy
                    show x.1 ≤ y.1
                    rw [show ({ flushSection s with
                      out := (flushSection s).out ++
                        [(i, Block.subheading (n ++ "." ++ m ++ " " ++ t))] } : St).content =
                      (flushSection s).content from rfl, flushSection_content] at hy
                    exact absurd hy (List.not_mem_nil y)
                  · intro x hx y hy
                    show x.1 ≤ y.1
                    rw [show ({ flushSection s with
                      out := (flushSection s).out ++
                        [(i, Block.subheading (n ++ "." ++ m ++ " " ++ t))] } : St).tableBuf =
                      (flushSection s).tableBuf from rfl, flushSection_tableBuf, htbnil] at hy
                    exact absurd hy (List.not_mem_nil y)
                  · intro x hx y hy
                    show x.1 ≤ y.1
                    rw [show ({ flushSection s with
                      out := (flushSection s).out ++
                        [(i, Block.subheading (n ++ "." ++ m ++ " " ++ t))] } : St).tableBuf =
                      (flushSection s).tableBuf from rfl, flushSection_tableBuf, htbnil] at hy
                    exact absurd hy (List.not_mem_nil y)
                  · intro h1 h2
                    exact absurd (hflush.2.2.2 h1 h2) not_false
                  · intro x hx
                    rcases List.mem_append.mp hx with hx | hx
                    · exact le_trans (hflush.2.2.1 x hx) (Nat.le_succ i)
                    · rw [List.mem_singleton] at hx
                      exact hx ▸ Nat.le_succ i
                  · intro x hx
                    rw [show ({ flushSection s with
                      out := (flushSection s).out ++
                        [(i, Block.subheading (n ++ "." ++ m ++ " " ++ t))] } : St).content =
                      (flushSection s).content from rfl, flushSection_content] at hx
                    exact absurd hx (List.not_mem_nil x)
                  · intro x hx
                    rw [show ({ flushSection s with
                      out := (flushSection s).out ++
                        [(i, Block.subheading (n ++ "." ++ m ++ " " ++ t))] } : St).tableBuf =
                      (flushSection s).tableBuf from rfl, flushSection_tableBuf, htbnil] at hx
                    exact absurd hx (List.not_mem_nil x)
                  · show (flushSection s).cur.1 ≤ i + 1
                    rw [flushSection_cur]
                    exact le_trans h.curBelow (Nat.le_succ i)
                  · intro _
                    show (flushSection s).tableBuf = []
                    rw [flushSection_tableBuf]
                    exact htbnil
                  · intro hx
                    exact absurd hx (by
                      show ¬ (flushSection s).inTable = true
                      rw [flushSection_inTable, hnotabF]
                      simp)
                  · show (flushSection s).inCode = false
                    rw [flushSection_inCode]
                    exact h.code
                · split
                  · -- placeholder already seen: emit only the Subheading
                    refine ⟨pairwise_snoc hflush.1
                        (fun x hx => hflush.2.2.1 x hx), ?_, ?_, ?_, ?_, ?_, ?_, ?_, ?_, ?_, ?_,
                        ?_, ?_, ?_⟩
                    · show (flushSection s).content.Pairwise _
                      rw [flushSection_content]
                      exact List.Pairwise.nil
                    · show (flushSection s).tableBuf.Pairwise _
                      rw [flushSection_tableBuf, htbnil]
                      exact List.Pairwise.nil
                    · intro x hx y hy
                      show x.1 ≤ y.1
                      rw [show ({ flushSection s with
                        out := (flushSection s).out ++
                          [(i, Block.subheading (n ++ "." ++ m ++ " " ++ t))] } : St).content =
                        (flushSection s).content from rfl, flushSection_content] at hy
                      exact absurd hy (List.not_mem_nil y)
                    · intro x hx y hy
                      show x.1 ≤ y.1
                      rw [show ({ flushSection s with
                        out := (flushSection s).out ++
                          [(i, Block.subheading (n ++ "." ++ m ++ " " ++ t))] } : St).tableBuf =
                        (flushSection s).tableBuf from rfl, flushSection_tableBuf, htbnil] at hy
                      exact absurd hy (List.not_mem_nil y)
                    · intro x hx y hy
                      show x.1 ≤ y.1
                      rw [show ({ flushSection s with
                        out := (flushSection s).out ++
                          [(i, Block.subheading (n ++ "." ++ m ++ " " ++ t))] } : St).tableBuf =
                        (flushSection s).tableBuf from rfl, flushSection_tableBuf, htbnil] at hy
                      exact absurd hy (List.not_mem_nil y)
                    · intro h1 h2
                      exact absurd (hflush.2.2.2 h1 h2) not_false
                    · intro x hx
                      rcases List.mem_append.mp hx with hx | hx
                      · exact le_trans (hflush.2.2.1 x hx) (Nat.le_succ i)
                      · rw [List.mem_singleton] at hx
                        exact hx ▸ Nat.le_succ i
                    · intro x hx
                      rw [show ({ flushSection s with
                        out := (flushSection s).out ++
                          [(i, Block.subheading (n ++ "." ++ m ++ " " ++ t))] } : St).content =
                        (flushSection s).content from rfl, flushSection_content] at hx
                      exact absurd hx (List.not_mem_nil x)
                    · intro x hx
                      rw [show ({ flushSection s with
                        out := (flushSection s).out ++
                          [(i, Block.subheading (n ++ "." ++ m ++ " " ++ t))] } : St).tableBuf =
                        (flushSection s).tableBuf from rfl, flushSection_tableBuf, htbnil] at hx
                      exact absurd hx (List.not_mem_nil x)
                    · show (flushSection s).cur.1 ≤ i + 1
                      rw [flushSection_cur]
                      exact le_trans h.curBelow (Nat.le_succ i)
                    · intro _
                      show (flushSection s).tableBuf = []
                      rw [flushSection_tableBuf]
                      exact htbnil
                    · intro hx
                      exact absurd hx (by
                        show ¬ (flushSection s).inTable = true
                        rw [flushSection_inTable, hnotabF]
                        simp)
                    · show (flushSection s).inCode = false
                      rw [flushSection_inCode]
                      exact h.code
                  · -- placeholder heading and Subheading are emitted
                    have hsorted2 : ((flushSection s).out ++ [(i, Block.heading (autoTitle n))] ++
                        [(i, Block.subheading (n ++ "." ++ m ++ " " ++ t))]).Pairwise
                        (fun a b => a.1 ≤ b.1) := by
                      refine pairwise_snoc (pairwise_snoc hflush.1
                        (fun x hx => hflush.2.2.1 x hx)) ?_
                      intro x hx
                      rcases List.mem_append.mp hx with hx | hx
                      · exact hflush.2.2.1 x hx
                      · rw [List.mem_singleton] at hx
                        exact hx ▸ le_refl i
                    refine ⟨hsorted2, ?_, ?_, ?_, ?_, ?_, ?_, ?_, ?_, ?_, ?_, ?_, ?_, ?_⟩
                    · show (flushSection s).content.Pairwise _
                      rw [flushSection_content]
                      exact List.Pairwise.nil
                    · show (flushSection s).tableBuf.Pairwise _
                      rw [flushSection_tableBuf, htbnil]
                      exact List.Pairwise.nil
                    · intro x hx y hy
                      show x.1 ≤ y.1
                      rw [show ({ flushSection s with
                        out := (flushSection s).out ++ [(i, Block.heading (autoTitle n))] ++
                          [(i, Block.subheading (n ++ "." ++ m ++ " " ++ t))],
                        seen := (flushSection s).seen ++ [autoTitle n],
                        known := (flushSection s).known ++ [n] } : St).content =
                        (flushSection s).content from rfl, flushSection_content] at hy
                      exact absurd hy (List.not_mem_nil y)
                    · intro x hx y hy
                      show x.1 ≤ y.1
                      rw [show ({ flushSection s with
                        out := (flushSection s).out ++ [(i, Block.heading (autoTitle n))] ++
                          [(i, Block.subheading (n ++ "." ++ m ++ " " ++ t))],
                        seen := (flushSection s).seen ++ [autoTitle n],
                        known := (flushSection s).known ++ [n] } : St).tableBuf =
                        (flushSection s).tableBuf from rfl, flushSection_tableBuf, htbnil] at hy
                      exact absurd hy (List.not_mem_nil y)
                    · intro x hx y hy
                      show x.1 ≤ y.1
                      rw [show ({ flushSection s with
                        out := (flushSection s).out ++ [(i, Block.heading (autoTitle n))] ++
                          [(i, Block.subheading (n ++ "." ++ m ++ " " ++ t))],
                        seen := (flushSection s).seen ++ [autoTitle n],
                        known := (flushSection s).known ++ [n] } : St).tableBuf =
                        (flushSection s).tableBuf from rfl, flushSection_tableBuf, htbnil] at hy
                      exact absurd hy (List.not_mem_nil y)
                    · intro h1 h2
                      have h2a : (flushSection s).seen.contains (flushSection s).cur.2 = false :=
                        contains_append_false h2
                      exact absurd (hflush.2.2.2 h1 h2a) not_false
                    · intro x hx
                      rcases List.mem_append.mp hx with hx | hx
                      · rcases List.mem_append.mp hx with hx | hx
                        · exact le_trans (hflush.2.2.1 x hx) (Nat.le_succ i)
                        · rw [List.mem_singleton] at hx
                          exact hx ▸ Nat.le_succ i
                      · rw [List.mem_singleton] at hx
                        exact hx ▸ Nat.le_succ i
                    · intro x hx
                      rw [show ({ flushSection s with
                        out := (flushSection s).out ++ [(i, Block.heading (autoTitle n))] ++
                          [(i, Block.subheading (n ++ "." ++ m ++ " " ++ t))],
                        seen := (flushSection s).seen ++ [autoTitle n],
                        known := (flushSection s).known ++ [n] } : St).content =
                        (flushSection s).content from rfl, flushSection_content] at hx
                      exact absurd hx (List.not_mem_nil x)
                    · intro x hx
                      rw [show ({ flushSection s with
                        out := (flushSection s).out ++ [(i, Block.heading (autoTitle n))] ++
                          [(i, Block.subheading (n ++ "." ++ m ++ " " ++ t))],
                        seen := (flushSection s).seen ++ [autoTitle n],
                        known := (flushSection s).known ++ [n] } : St).tableBuf =
                        (flushSection s).tableBuf from rfl, flushSection_tableBuf, htbnil] at hx
                      exact absurd hx (List.not_mem_nil x)
                    · show (flushSection s).cur.1 ≤ i + 1
                      rw [flushSection_cur]
                      exact le_trans h.curBelow (Nat.le_succ i)
                    · intro _
                      show (flushSection s).tableBuf = []
                      rw [flushSection_tableBuf]
                      exact htbnil
                    · intro hx
                      exact absurd hx (by
                        show ¬ (flushSection s).inTable = true
                        rw [flushSection_inTable, hnotabF]
                        simp)
                    · show (flushSection s).inCode = false
                      rw [flushSection_inCode]
                      exact h.code
              · -- plain content line is buffered
                refine ⟨h.outSorted,
                  pairwise_snoc h.contentSorted (fun x hx => h.contentBelow x hx),
                  h.tbSorted, ?_, h.outTb, ?_, ?_,
                  fun x hx => le_trans (h.outBelow x hx) (Nat.le_succ i), ?_,
                  fun x hx => le_trans (h.tbBelow x hx) (Nat.le_succ i),
                  le_trans h.curBelow (Nat.le_succ i), h.tbEmpty, h.tbFull, h.code⟩
                · intro x hx y hy
                  rcases List.mem_append.mp hy with hy | hy
                  · exact h.outContent x hx y hy
                  · rw [List.mem_singleton] at hy
                    exact hy ▸ h.outBelow x hx
                · intro x hx y hy
                  rcases List.mem_append.mp hx with hx | hx
                  · exact h.contentTb x hx y hy
                  · rw [htbnil] at hy
                    exact absurd hy (List.not_mem_nil y)
                · intro h1 h2
                  obtain ⟨ho1, ho2, ho3⟩ := h.liveCur h1 h2
                  refine ⟨ho1, ?_, ho3⟩
                  intro y hy
                  rcases List.mem_append.mp hy with hy | hy
                  · exact ho2 y hy
                  · rw [List.mem_singleton] at hy
                    subst hy
                    exact h.curBelow
                · intro x hx
                  rcases List.mem_append.mp hx with hx | hx
                  · exact le_trans (h.contentBelow x hx) (Nat.le_succ i)
                  · rw [List.mem_singleton] at hx
                    exact hx ▸ Nat.le_succ i

/-- Folding fence-free enumerated lines preserves the ordering invariant. -/
theorem foldl_InvO : ∀ (lines : List String) (i : Nat) (s : St),
    (∀ l ∈ lines, litStarts (pyStrip l) "```" = false) → InvO i s →
    InvO (i + lines.length) ((lines.enumFrom i).foldl stepLine s)
  | [], _, _, _, h => by simpa using h
  | l :: rest, i, s, hf, h => by
    rw [List.enumFrom_cons, List.foldl_cons]
    have h1 := stepLine_InvO (hf l (List.mem_cons_self l rest)) h
    have h2 := foldl_InvO rest (i + 1) (stepLine s (i, l))
      (fun x hx => hf x (List.mem_cons_of_mem l hx)) h1
    rw [show i + (l :: rest).length = (i + 1) + rest.length by
      rw [List.length_cons]; omega]
    exact h2

/-- C5 (amended): for raw text with no code-fence lines, the blocks of the
produced document carry monotonically non-decreasing first-line positions:
they are emitted in input order. -/
theorem claim5_amended (text : String)
    (hf : ∀ l ∈ pySplitlines text, litStarts (pyStrip l) "```" = false) :
    (generateDocT text).Pairwise fun a b => a.1 ≤ b.1 := by
  unfold generateDocT generateDocLines
  rw [List.enum_eq_enumFrom]
  exact (flushSection_InvO (foldl_InvO (pySplitlines text) 0 initSt hf InvO_init)).1

/-- C5 (counterexample): for the raw text "1. A\n```\nx\n```" the committed
CodeBlock (first line at input position 1) precedes the flushed Heading
(first line at input position 0), so blocks are NOT always emitted in input
order. -/
theorem claim5_counterexample :
    ¬ ((generateDocT "1. A\n```\nx\n```").Pairwise fun a b => a.1 ≤ b.1) := by
  intro hp
  rw [show generateDocT "1. A\n```\nx\n```" =
    [(1, Block.codeBlock ["x"]), (0, Block.heading "1. A")] from rfl] at hp
  have h10 := (List.pairwise_cons.mp hp).1 (0, Block.heading "1. A")
    (List.mem_singleton.mpr rfl)
  exact absurd h10 (by decide)

/-- C5 (witness): on a concrete fence-free input the amended ordering
result applies and its hypothesis holds. -/
theorem claim5_witness :
    (∀ l ∈ pySplitlines "1. Purpose\nText A\n2. Scope\nText B",
      litStarts (pyStrip l) "```" = false) ∧
    ((generateDocT "1. Purpose\nText A\n2. Scope\nText B").Pairwise
      fun a b => a.1 ≤ b.1) :=
  ⟨by decide, claim5_amended "1. Purpose\nText A\n2. Scope\nText B" (by decide)⟩
